import Mathlib

/-!
Verification of the message datapath core of dynomite (`src/dyn_message.c`).

The C structures (`struct mbuf`, `struct msg`, `struct conn`, `struct dmsg`)
are embedded shallowly.  Pointers into a buffer are modelled as natural-number
offsets, with every mbuf's data region based at 0 (`start = 0`); the only
pointer comparisons the code performs are within a single buffer, so this is
faithful.  The static globals of `dyn_message.c` (`msg_id`, `frag_id`,
`nfree_msgq`, `free_msgq`, `alloc_msg_count`) are gathered in `MsgState`.
External collaborators (the connection's non-blocking `recv`/`sendv`, memory
allocation, the AES decrypt primitive, `strerror`) are passed in as explicit
oracle arguments, mirroring the non-determinism of the environment.

The mbuf primitives (`mbuf_get`, `mbuf_copy`, `mbuf_split`, ...) live in
`dyn_mbuf.c`, which is not part of the sources under verification; they are
modelled from the specification (each such definition is marked).
-/

namespace Dynomite

/-- Return status `rstatus_t` / `DN_OK`, `DN_ERROR`, `DN_ENOMEM`, `DN_EAGAIN`. -/
inductive Rstatus where
  | ok
  | error
  | enomem
  | eagain
  deriving DecidableEq, Repr

/-- Parser result codes (`msg_parse_result_t`): `MSG_PARSE_OK`,
`MSG_PARSE_FRAGMENT`, `MSG_PARSE_REPAIR`, `MSG_PARSE_AGAIN`, and `err`
standing for any other value (the `default` branch of `msg_parse`). -/
inductive ParseResult where
  | ok
  | fragment
  | repair
  | again
  | err
  deriving DecidableEq, Repr, Inhabited

/-- The six wire parsers selectable by `msg_get` (`dyn_message.c` lines 312-347). -/
inductive ParserKind where
  | dynReq
  | dynRsp
  | redisReq
  | redisRsp
  | memcacheReq
  | memcacheRsp
  deriving DecidableEq, Repr

/-- Dialect of the pre/post split-copy and coalesce callbacks. -/
inductive SplitKind where
  | redis
  | memcache
  deriving DecidableEq, Repr

/-- `dyn_error_t` values that `msg_get_error` inspects; `other` covers every
remaining value. -/
inductive DynError where
  | peerConnectionRefuse
  | storageConnectionRefuse
  | other (code : Nat)
  deriving DecidableEq, Repr

/-- A buffer segment (`struct mbuf`).  `mend` is the C field `end` (a Lean
keyword).  All pointers are offsets from the segment base, so a fresh buffer
has `start = pos = last = 0`.  The byte contents are not represented; only
the pointer arithmetic of `dyn_message.c` is. -/
structure Mbuf where
  start : Nat
  pos : Nat
  last : Nat
  mend : Nat
  endExtra : Nat
  readFlip : Bool
  deriving DecidableEq, Repr

/-- Modelled from the spec: `mbuf_get` returns a fresh buffer whose data
region is empty, with capacity `bufSize` and ciphertext padding up to
`bufSize + extra` (`[end, end_extra)` is reserved padding). -/
def mbuf_get_fresh (bufSize extra : Nat) : Mbuf :=
  { start := 0, pos := 0, last := 0, mend := bufSize, endExtra := bufSize + extra,
    readFlip := false }

/-- Modelled from the spec: `mbuf_length` is the size of the unread region
`[pos, last)`. -/
def mbuf_length (m : Mbuf) : Nat :=
  m.last - m.pos

/-- Modelled from the spec: `mbuf_size` is the free space `[last, end)`
available for normal writes. -/
def mbuf_size (m : Mbuf) : Nat :=
  m.mend - m.last

/-- Modelled from the spec: a buffer is full when no free space is left. -/
def mbuf_full (m : Mbuf) : Bool :=
  m.last == m.mend

/-- Modelled from the spec: a buffer is empty when the unread region is empty. -/
def mbuf_empty (m : Mbuf) : Bool :=
  m.pos == m.last

/-- Modelled from the spec: `mbuf_copy` appends `n` bytes to the buffer,
advancing `last`. -/
def mbuf_copy (m : Mbuf) (n : Nat) : Mbuf :=
  { m with last := m.last + n }

/-- Modelled from the spec: `mbuf_split(h, pos, cb, cbarg)` splits the chain at
byte-pointer `p` of the tail buffer: the bytes `≥ p` move into a fresh buffer
(preceded by `preLen` bytes of protocol prefix written by the `pre_copy`
callback), and the tail's `last` is pulled back to `p`.  Allocation failure of
the fresh buffer is decided by the caller's oracle before calling this
success path.  Returns `none` only on an empty chain (never reached by the
callers under their claims' hypotheses). -/
def mbuf_split_at (mhdr : List Mbuf) (p : Nat) (preLen : Nat) (bufSize extra : Nat) :
    Option (List Mbuf × Mbuf) :=
  match mhdr.getLast? with
  | none => none
  | some tail =>
    let nbuf := mbuf_copy (mbuf_copy (mbuf_get_fresh bufSize extra) preLen) (tail.last - p)
    some (mhdr.dropLast ++ [{ tail with last := p }], nbuf)

/-- The internal-protocol envelope (`struct dmsg`): `bit_field == 1` signals
an AES-encrypted payload, `plen` the remaining ciphertext byte count. -/
structure Dmsg where
  bit_field : Nat
  plen : Nat
  deriving DecidableEq, Repr

/-- The connection capability (`struct conn`) as consumed by the datapath
core: `dyn_mode` distinguishes internal (peer) from external connections. -/
structure Conn where
  sd : Nat
  dyn_mode : Bool
  redis : Bool
  client : Bool
  proxy : Bool
  dnode_client : Bool
  dnode_server : Bool
  err : Nat
  deriving DecidableEq, Repr

/-- `MSG_UNKNOWN` message type. -/
def MSG_UNKNOWN : Nat := 0

/-- `MSG_RSP_MC_SERVER_ERROR` message type. -/
def MSG_RSP_MC_SERVER_ERROR : Nat := 1

/-- A message (`struct msg`).  `frag_owner` and `peer` are heap references,
modelled as indices into a list of live messages; `owner` carries the owning
connection; `mend` is the C field `end`.  The intrusive queue links
(`c_tqe`, `s_tqe`, `m_tqe`) are represented by the containing lists
themselves. -/
structure Msg where
  id : Nat
  peer : Option Nat
  owner : Option Conn
  stime_in_microsec : Nat
  mhdr : List Mbuf
  mlen : Nat
  state : Nat
  pos : Option Nat
  token : Option Nat
  parser : Option ParserKind
  result : ParseResult
  pre_splitcopy : Option SplitKind
  post_splitcopy : Option SplitKind
  pre_coalesce : Option SplitKind
  post_coalesce : Option SplitKind
  type : Nat
  key_start : Option Nat
  key_end : Option Nat
  vlen : Nat
  mend : Option Nat
  frag_owner : Option Nat
  nfrag : Nat
  frag_id : Nat
  narg_start : Option Nat
  narg_end : Option Nat
  narg : Nat
  rnarg : Nat
  rlen : Nat
  integer : Nat
  err : Nat
  error : Bool
  ferror : Bool
  request : Bool
  quit : Bool
  noreply : Bool
  done : Bool
  fdone : Bool
  first_fragment : Bool
  last_fragment : Bool
  swallow : Bool
  redis : Bool
  is_read : Bool
  dyn_state : Nat
  dmsg : Option Dmsg
  msg_type : Nat
  deriving DecidableEq, Repr, Inhabited

/-- The `done:` block of `_msg_get` (`dyn_message.c` lines 228-290): every
field of the message is reinitialized to its default and a fresh id is
assigned.  The argument message (a recycled free-list entry or the
uninitialized result of `dn_alloc`) is irrelevant because every modelled
field is overwritten. -/
def msgReset (_m : Msg) (newId : Nat) : Msg :=
  { id := newId, peer := none, owner := none, stime_in_microsec := 0,
    mhdr := [], mlen := 0, state := 0, pos := none, token := none,
    parser := none, result := ParseResult.ok,
    pre_splitcopy := none, post_splitcopy := none,
    pre_coalesce := none, post_coalesce := none,
    type := MSG_UNKNOWN, key_start := none, key_end := none, vlen := 0,
    mend := none, frag_owner := none, nfrag := 0, frag_id := 0,
    narg_start := none, narg_end := none, narg := 0, rnarg := 0, rlen := 0,
    integer := 0, err := 0, error := false, ferror := false, request := false,
    quit := false, noreply := false, done := false, fdone := false,
    first_fragment := false, last_fragment := false, swallow := false,
    redis := false, is_read := true, dyn_state := 0, dmsg := none,
    msg_type := 0 }

/-- The static globals of `dyn_message.c`: `msg_id`, `frag_id`,
`nfree_msgq` with the free queue `free_msgq`, and `alloc_msg_count`. -/
structure MsgState where
  msg_id : Nat
  frag_id : Nat
  nfree_msgq : Nat
  free_msgq : List Msg
  alloc_msg_count : Nat
  deriving DecidableEq, Repr

/-- The state after `msg_init` (the allocation counter is statically
initialized to 0, line 193). -/
def msgInitState : MsgState :=
  { msg_id := 0, frag_id := 0, nfree_msgq := 0, free_msgq := [], alloc_msg_count := 0 }

/-- `_msg_get(force_alloc)` (lines 195-291): pop the free list if non-empty;
otherwise refuse when `alloc_msg_count ≥ ALLOWED_ALLOC_MSGS` and the call is
not forced, refuse when `alloc_msg_count ≥ MAX_ALLOC_MSGS`, else bump the
counter and allocate (`allocOk` is the `dn_alloc` success oracle; note the
counter is incremented before `dn_alloc` is consulted, as in the source).
Both paths funnel through the `done:` reinitialization `msgReset` with a
fresh id `++msg_id`. -/
def _msg_get (ALLOWED MAX : Nat) (force_alloc : Bool) (allocOk : Bool)
    (st : MsgState) : Option Msg × MsgState :=
  match st.free_msgq with
  | m :: rest =>
    let st1 : MsgState :=
      { st with nfree_msgq := st.nfree_msgq - 1, free_msgq := rest,
                msg_id := st.msg_id + 1 }
    (some (msgReset m st1.msg_id), st1)
  | [] =>
    if st.alloc_msg_count ≥ ALLOWED ∧ ¬force_alloc then
      (none, st)
    else if st.alloc_msg_count ≥ MAX then
      (none, st)
    else
      let st1 : MsgState := { st with alloc_msg_count := st.alloc_msg_count + 1 }
      if ¬allocOk then
        (none, st1)
      else
        let st2 : MsgState := { st1 with msg_id := st1.msg_id + 1 }
        (some (msgReset (msgReset default 0) st2.msg_id), st2)

/-- `msg_free_queue_size` (lines 293-296). -/
def msg_free_queue_size (st : MsgState) : Nat :=
  st.nfree_msgq

/-- The binding block of `msg_get` (lines 308-348): owner, direction,
dialect, and the parser / split / coalesce callbacks selected by
`(redis, request, conn->dyn_mode)` per the dispatch table. -/
def msgBind (conn : Conn) (request redis : Bool) (m0 : Msg) : Msg :=
  let m1 := { m0 with owner := some conn, request := request, redis := redis }
  if redis then
    { m1 with
      parser := some (if request then
                        (if conn.dyn_mode then ParserKind.dynReq else ParserKind.redisReq)
                      else
                        (if conn.dyn_mode then ParserKind.dynRsp else ParserKind.redisRsp))
      pre_splitcopy := some SplitKind.redis
      post_splitcopy := some SplitKind.redis
      pre_coalesce := some SplitKind.redis
      post_coalesce := some SplitKind.redis }
  else
    { m1 with
      parser := some (if request then
                        (if conn.dyn_mode then ParserKind.dynReq else ParserKind.memcacheReq)
                      else
                        (if conn.dyn_mode then ParserKind.dynRsp else ParserKind.memcacheRsp))
      pre_splitcopy := some SplitKind.memcache
      post_splitcopy := some SplitKind.memcache
      pre_coalesce := some SplitKind.memcache
      post_coalesce := some SplitKind.memcache }

/-- `msg_get(conn, request, redis)` (lines 298-354): `_msg_get` with
`force_alloc = conn->dyn_mode`, then the `msgBind` binding block. -/
def msg_get (ALLOWED MAX : Nat) (conn : Conn) (request redis : Bool)
    (allocOk : Bool) (st : MsgState) : Option Msg × MsgState :=
  match _msg_get ALLOWED MAX conn.dyn_mode allocOk st with
  | (none, st') => (none, st')
  | (some m0, st') => (some (msgBind conn request redis m0), st')

/-- `msg_put` (lines 450-469): release the dmsg envelope, return every mbuf
of the chain to the mbuf pool, and push the message at the head of the free
list.  Note that `mlen` is not reset here; `_msg_get` re-establishes the
defaults on reuse. -/
def msg_put (st : MsgState) (m : Msg) : MsgState :=
  let m1 := { m with dmsg := none, mhdr := [] }
  { st with nfree_msgq := st.nfree_msgq + 1, free_msgq := m1 :: st.free_msgq }

/-- `msg_mbuf_size` (lines 472-482): number of mbufs in the chain. -/
def msg_mbuf_size (m : Msg) : Nat :=
  m.mhdr.length

/-- `msg_length` (lines 484-494): the sum of `last - start` over the chain. -/
def msg_length (m : Msg) : Nat :=
  (m.mhdr.map (fun b => b.last - b.start)).sum

/-- `msg_empty` (lines 549-553). -/
def msg_empty (m : Msg) : Bool :=
  m.mlen == 0

/-- The datapath invariant relating a message's aggregate length to its
buffer chain: `mlen == Σ (mb.last − mb.start)` (spec §3 invariant 1, i.e.
`msg_length(msg) == msg->mlen`). -/
def msgLenInv (m : Msg) : Prop :=
  m.mlen = msg_length m

instance (m : Msg) : Decidable (msgLenInv m) := by
  unfold msgLenInv; infer_instance

/-- CRLF terminator of the error wire shapes. -/
def CRLF : String := "\r\n"

/-- `msg_get_error(redis, dyn_err, err)` (lines 400-439): force-allocate a
message (`_msg_get(1)`), mark it `MSG_RSP_MC_SERVER_ERROR`, obtain one mbuf
(`mbufOk` oracle; on failure the message is put back) and format
`"%s %s %s\r\n"` with the protocol marker, the source tag and the errno
string into it.  `strerror` is the C library string table, passed as an
oracle; for a `dyn_err` outside the two handled values the local `source`
pointer is uninitialized in the C source, modelled here as `""`.
`dn_scnprintf` is modelled as writing the whole formatted string (its
truncation at the buffer capacity is not modelled; the theorems assume the
string fits, as it does for the real `MBUF_CAP`).  Returns the message
together with the formatted buffer contents. -/
def msg_get_error (ALLOWED MAX : Nat) (redis : Bool) (dyn_err : DynError) (err : Nat)
    (strerror : Nat → String) (mbufOk : Bool) (bufSize extra : Nat)
    (allocOk : Bool) (st : MsgState) : Option (Msg × String) × MsgState :=
  let errstr := if err ≠ 0 then strerror err else "unknown"
  let protstr := if redis then "-ERR" else "SERVER_ERROR"
  let source :=
    match dyn_err with
    | DynError.peerConnectionRefuse => "Peer:"
    | DynError.storageConnectionRefuse => "Storage:"
    | DynError.other _ => ""
  match _msg_get ALLOWED MAX true allocOk st with
  | (none, st') => (none, st')
  | (some m0, st') =>
    let m1 := { m0 with state := 0, type := MSG_RSP_MC_SERVER_ERROR }
    if ¬mbufOk then
      (none, msg_put st' m1)
    else
      let content := protstr ++ " " ++ source ++ " " ++ errstr ++ CRLF
      let n := content.length
      let mbuf := mbuf_copy (mbuf_get_fresh bufSize extra) n
      (some ({ m1 with mhdr := [mbuf], mlen := n }, content), st')

/-- The `STAILQ_FOREACH` copy loop of `msg_clone` (lines 378-394), walking the
source chain with its position `idx`; `started` is the flag skipping buffers
before `mbufStart`.  `supply` is the number of `mbuf_get` calls that will
still succeed (the mbuf pool oracle); when it is exhausted the loop returns
`ENOMEM` immediately, exactly as the source does, leaving the buffers copied
so far attached to the target. -/
def msg_clone_loop (bufSize extra : Nat) (mbufStart : Nat) :
    List Mbuf → Nat → Bool → Msg → Nat → Rstatus × Msg × Nat
  | [], _, _, t, supply => (Rstatus.ok, t, supply)
  | b :: rest, idx, started, t, supply =>
    if ¬started ∧ idx ≠ mbufStart then
      msg_clone_loop bufSize extra mbufStart rest (idx + 1) false t supply
    else
      if supply = 0 then
        (Rstatus.enomem, t, supply)
      else
        let nbuf := mbuf_copy (mbuf_get_fresh bufSize extra) (mbuf_length b)
        msg_clone_loop bufSize extra mbufStart rest (idx + 1) true
          { t with mhdr := t.mhdr ++ [nbuf] } (supply - 1)

/-- `msg_clone(src, mbuf_start, target)` (lines 356-397): copy the metadata
(owner, direction, dialect, parser and callbacks, classification, `mlen`,
`pos`, ...) and deep-copy the chain from the buffer identified by the index
`mbufStart` onwards.  The C `mbuf_start` pointer identity test is modelled by
the index of the buffer in `src->mhdr`. -/
def msg_clone (bufSize extra : Nat) (src : Msg) (mbufStart : Nat) (target : Msg)
    (supply : Nat) : Rstatus × Msg × Nat :=
  let t :=
    { target with
      owner := src.owner, request := src.request, redis := src.redis,
      parser := src.parser,
      pre_splitcopy := src.pre_splitcopy, post_splitcopy := src.post_splitcopy,
      pre_coalesce := src.pre_coalesce, post_coalesce := src.post_coalesce,
      noreply := src.noreply, type := src.type,
      key_start := src.key_start, key_end := src.key_end,
      mlen := src.mlen, pos := src.pos, vlen := src.vlen,
      is_read := src.is_read }
  msg_clone_loop bufSize extra mbufStart src.mhdr 0 false t supply

/-- `msg_parsed` (lines 555-596).  The oracles: `splitOk` is the success of
the `mbuf_get` inside `mbuf_split`, `allocOk` the `dn_alloc` success inside
the nested `msg_get`.  The result carries the updated message, the new
message `nmsg` carved out of the unparsed tail (if any), the updated globals,
and whether `conn->recv_done(ctx, conn, msg, nmsg)` was invoked. -/
structure ParsedOut where
  status : Rstatus
  msg : Msg
  nmsg : Option Msg
  st : MsgState
  recvDone : Bool
  deriving Repr

/-- See `ParsedOut`.  On `pos == last` of the tail mbuf the chain is left
unchanged and `recv_done(msg, NULL)` fires; otherwise the chain is split at
`msg->pos`, the tail buffer is attached to a fresh message obtained by
`msg_get(msg->owner, msg->request, conn->redis)`, and the lengths are
transferred.  The `none` fallbacks for an empty chain, a NULL `pos` or a NULL
`owner` correspond to pointer dereferences the C code performs
unconditionally; the claims' hypotheses rule them out. -/
def msg_parsed (ALLOWED MAX : Nat) (conn : Conn) (msg : Msg)
    (splitOk allocOk : Bool) (bufSize extra : Nat) (st : MsgState) : ParsedOut :=
  match msg.mhdr.getLast?, msg.pos, msg.owner with
  | some mbuf, some p, some ownerConn =>
    if p = mbuf.last then
      { status := Rstatus.ok, msg := msg, nmsg := none, st := st, recvDone := true }
    else
      if ¬splitOk then
        { status := Rstatus.enomem, msg := msg, nmsg := none, st := st, recvDone := false }
      else
        match mbuf_split_at msg.mhdr p 0 bufSize extra with
        | none =>
          { status := Rstatus.enomem, msg := msg, nmsg := none, st := st, recvDone := false }
        | some (mhdr1, nbuf) =>
          let msg1 := { msg with mhdr := mhdr1 }
          match msg_get ALLOWED MAX ownerConn msg.request conn.redis allocOk st with
          | (none, st') =>
            { status := Rstatus.enomem, msg := msg1, nmsg := none, st := st', recvDone := false }
          | (some nmsg0, st') =>
            let nmsg1 := { nmsg0 with mhdr := [nbuf]
                                      pos := some nbuf.pos
                                      mlen := mbuf_length nbuf }
            let msg2 := { msg1 with mlen := msg1.mlen - nmsg1.mlen }
            { status := Rstatus.ok, msg := msg2, nmsg := some nmsg1, st := st',
              recvDone := true }
  | _, _, _ =>
    { status := Rstatus.error, msg := msg, nmsg := none, st := st, recvDone := false }

/-- Modelled from the spec: `post_splitcopy` patches the retained head of the
fragmented message by appending `k` bytes (e.g. a re-synthesized CRLF) to its
tail buffer. -/
def postPatch (mhdr : List Mbuf) (k : Nat) : List Mbuf :=
  match mhdr.getLast? with
  | none => mhdr
  | some tail => mhdr.dropLast ++ [mbuf_copy tail k]

/-- `msg_fragment` (lines 598-695), lifted to a heap of live messages (a list
indexed by position; `frag_owner` references are such indices, and the
message obtained from `msg_get` is appended at the end).  Oracles: `splitOk`
for the `mbuf_get` inside `mbuf_split`, `preLen` for the number of prefix
bytes written by `pre_splitcopy`, `postOk`/`postLen` for `post_splitcopy`
(failure releases the tail buffer and propagates, with the chain already
split, as in the source), `allocOk` for the nested `msg_get`.  On success the
fragment-group fields are updated exactly as in lines 671-681: first split
allocates `++frag_id` and makes the message its own `frag_owner` with
`nfrag = 1` and `first_fragment = 1`; the new message inherits `frag_id` and
`frag_owner`, takes over `last_fragment`, and the owner's `nfrag` is
incremented. -/
def msg_fragment (ALLOWED MAX : Nat) (heap : List Msg) (i : Nat)
    (splitOk : Bool) (preLen : Nat) (postOk : Bool) (postLen : Nat)
    (allocOk : Bool) (bufSize extra : Nat) (st : MsgState) :
    Rstatus × List Msg × MsgState :=
  match heap[i]? with
  | none => (Rstatus.error, heap, st)
  | some msg =>
    match msg.pos, msg.owner with
    | some p, some ownerConn =>
      if ¬splitOk then
        (Rstatus.enomem, heap, st)
      else
        match mbuf_split_at msg.mhdr p preLen bufSize extra with
        | none => (Rstatus.error, heap, st)
        | some (mhdr1, nbuf) =>
          if ¬postOk then
            (Rstatus.error, heap.set i { msg with mhdr := mhdr1 }, st)
          else
            let mhdr2 := postPatch mhdr1 postLen
            match msg_get ALLOWED MAX ownerConn msg.request msg.redis allocOk st with
            | (none, st') =>
              (Rstatus.enomem, heap.set i { msg with mhdr := mhdr2 }, st')
            | (some nmsg0, st') =>
              let nmsg1 := { nmsg0 with mhdr := [nbuf]
                                        pos := some nbuf.pos
                                        mlen := mbuf_length nbuf }
              let msg1 := { msg with mhdr := mhdr2, mlen := msg.mlen - mbuf_length nbuf }
              let (msg2, st2) :=
                if msg1.frag_id = 0 then
                  ({ msg1 with frag_id := st'.frag_id + 1, first_fragment := true,
                               nfrag := 1, frag_owner := some i },
                   { st' with frag_id := st'.frag_id + 1 })
                else
                  (msg1, st')
              let nmsg2 := { nmsg1 with frag_id := msg2.frag_id }
              let msg3 := { msg2 with last_fragment := false }
              let nmsg3 := { nmsg2 with last_fragment := true, frag_owner := msg3.frag_owner }
              let heap1 := (heap.set i msg3) ++ [nmsg3]
              let heap2 :=
                match msg3.frag_owner with
                | some o =>
                  match heap1[o]? with
                  | some om => heap1.set o { om with nfrag := om.nfrag + 1 }
                  | none => heap1
                | none => heap1
              (Rstatus.ok, heap2, st2)
    | _, _ => (Rstatus.error, heap, st)

/-- `msg_repair` (lines 697-710): split the chain at `msg->pos` and re-insert
the unparsed tail as a fresh buffer; `msg->pos` moves to the start of the new
tail. -/
def msg_repair (msg : Msg) (splitOk : Bool) (bufSize extra : Nat) : Rstatus × Msg :=
  match msg.pos with
  | none => (Rstatus.error, msg)
  | some p =>
    if ¬splitOk then
      (Rstatus.enomem, msg)
    else
      match mbuf_split_at msg.mhdr p 0 bufSize extra with
      | none => (Rstatus.error, msg)
      | some (mhdr1, nbuf) =>
        (Rstatus.ok, { msg with mhdr := mhdr1 ++ [nbuf], pos := some nbuf.pos })

/-- `msg_parse` (lines 713-760).  The parser invocation `msg->parser(msg)` is
an external capability; `result` is the value it leaves in `msg->result`.
The three sub-handlers `msg_parsed` / `msg_fragment` / `msg_repair` are
modelled separately above; their return statuses are passed in as
`parsedStatus` / `fragmentStatus` / `repairStatus`.  On the `default` branch
(a parse error) an external connection snapshots `errno` into `conn->err`
and fails, an internal connection swallows the error; the final line
`return conn->err != 0 ? DN_ERROR : status` is applied to every branch
except the empty-message early return. -/
def msg_parse (conn : Conn) (msg : Msg) (result : ParseResult)
    (parsedStatus fragmentStatus repairStatus : Rstatus) (errno : Nat) :
    Rstatus × Conn :=
  if msg_empty msg then
    (Rstatus.ok, conn)
  else
    let statusConn :=
      match result with
      | ParseResult.ok => (parsedStatus, conn)
      | ParseResult.fragment => (fragmentStatus, conn)
      | ParseResult.repair => (repairStatus, conn)
      | ParseResult.again => (Rstatus.ok, conn)
      | ParseResult.err =>
        if ¬conn.dyn_mode then
          (Rstatus.error, { conn with err := errno })
        else
          (Rstatus.ok, conn)
    (if statusConn.2.err ≠ 0 then Rstatus.error else statusConn.1, statusConn.2)

/-- Result of the non-blocking `conn_recv`: `again` is the `DN_EAGAIN`
sentinel, `err` a fatal failure, `bytes n` a successful read of `n ≥ 0`
bytes. -/
inductive ReadRes where
  | again
  | err
  | bytes (n : Nat)
  deriving DecidableEq, Repr

/-- Output of the read-and-decrypt phase of `msg_recv_chain`:
`decEvent = some (srcLen, remainder)` records that `dyn_aes_decrypt` was
invoked on the `srcLen` ciphertext bytes at `mbuf->start` and that
`remainder` trailing ciphertext bytes were copied behind the boundary into
the fresh buffer.  `msize` is the size handed to `conn_recv` (lines
787-788); it is 0 in the one early-exit branch that precedes its
computation. -/
structure RecvOut where
  status : Rstatus
  msg : Msg
  decEvent : Option (Nat × Nat)
  msize : Nat
  deriving Repr

/-- The read-and-decrypt phase of `msg_recv_chain` (lines 763-833), i.e.
everything before the parse loop (which drives `msg_parse` above and the
external `recv_next`).  Oracles: `attachOk` for the `mbuf_get` of a fresh
tail buffer, `r` for `conn_recv`, `decOk` for the `mbuf_get` of the
plaintext buffer, `decLen` for the number of plaintext bytes
`dyn_aes_decrypt` appends for a given ciphertext length. -/
def msg_recv_chain_read (msg : Msg) (attachOk : Bool) (bufSize extra : Nat)
    (r : ReadRes) (decOk : Bool) (decLen : Nat → Nat) : RecvOut :=
  let expected_fill : Option Nat :=
    match msg.dmsg with
    | some d => if d.bit_field = 1 then some d.plen else none
    | none => none
  let needNew : Bool :=
    match msg.mhdr.getLast? with
    | none => true
    | some mb => mbuf_full mb || (expected_fill.isSome && mb.last == mb.endExtra)
  if needNew ∧ ¬attachOk then
    { status := Rstatus.enomem, msg := msg, decEvent := none, msize := 0 }
  else
    let msg0 :=
      if needNew then
        let nb := mbuf_get_fresh bufSize extra
        { msg with mhdr := msg.mhdr ++ [nb], pos := some nb.pos }
      else msg
    match msg0.mhdr.getLast? with
    | none => { status := Rstatus.error, msg := msg0, decEvent := none, msize := 0 }
    | some mbuf =>
      let msize : Nat :=
        match expected_fill with
        | none => mbuf_size mbuf
        | some plen => min plen (mbuf.endExtra - mbuf.last)
      match r with
      | ReadRes.again =>
        { status := Rstatus.ok, msg := msg0, decEvent := none, msize := msize }
      | ReadRes.err =>
        { status := Rstatus.error, msg := msg0, decEvent := none, msize := msize }
      | ReadRes.bytes n =>
        let tail1 := { mbuf with last := mbuf.last + n }
        let msg1 := { msg0 with mhdr := msg0.mhdr.dropLast ++ [tail1]
                                mlen := msg0.mlen + n }
        match expected_fill with
        | none => { status := Rstatus.ok, msg := msg1, decEvent := none, msize := msize }
        | some plen =>
          if n ≥ plen ∨ tail1.endExtra = tail1.last then
            if ¬decOk then
              { status := Rstatus.enomem, msg := msg1, decEvent := none, msize := msize }
            else
              let srcLen := if tail1.endExtra = tail1.last then tail1.last - tail1.start else plen
              let rem := if tail1.endExtra = tail1.last then 0
                         else tail1.last - tail1.start - plen
              let nbuf0 := mbuf_copy (mbuf_copy (mbuf_get_fresh bufSize extra) (decLen srcLen)) rem
              let nbuf := { nbuf0 with readFlip := true }
              let msg2 := { msg1 with
                mhdr := msg1.mhdr.dropLast ++ [nbuf]
                pos := some nbuf.start
                mlen := msg1.mlen - (tail1.last - tail1.start) + (nbuf.last - nbuf.start)
                dmsg := some { bit_field := 1, plen := plen - n } }
              { status := Rstatus.ok, msg := msg2, decEvent := some (srcLen, rem), msize := msize }
          else
            { status := Rstatus.ok
              msg := { msg1 with dmsg := some { bit_field := 1, plen := plen - n } }
              decEvent := none
              msize := msize }

/-- The inner mbuf-adjustment loop of the `msg_send_chain` postprocess
(lines 969-988): advance `pos` through the message's buffers by the `nsent`
bytes confirmed by the vectored write.  Returns the adjusted chain, the
bytes left over for subsequent messages, and whether the walk ran past the
last mbuf (`mbuf == NULL`, i.e. the message was sent completely). -/
def mbuf_advance : Nat → List Mbuf → List Mbuf × Nat × Bool
  | nsent, [] => ([], nsent, true)
  | nsent, b :: rest =>
    if mbuf_empty b then
      let out := mbuf_advance nsent rest
      (b :: out.1, out.2.1, out.2.2)
    else
      let len := mbuf_length b
      if nsent < len then
        ({ b with pos := b.pos + nsent } :: rest, 0, false)
      else
        let out := mbuf_advance (nsent - len) rest
        ({ b with pos := b.last } :: out.1, out.2.1, out.2.2)

/-- The postprocess loop of `msg_send_chain` (lines 956-994) over the local
in-flight queue `send_msgq`, with `nsent` bytes confirmed.  Each message is
paired with whether `conn->send_done` fired for it: with no bytes left a
message is finalized only when `mlen == 0`; otherwise its buffers are
advanced and it is finalized when the walk consumed the whole chain.
Also returns the bytes still unaccounted at the end. -/
def msg_send_postprocess : Nat → List Msg → List (Msg × Bool) × Nat
  | nsent, [] => ([], nsent)
  | nsent, m :: rest =>
    if nsent = 0 then
      let out := msg_send_postprocess 0 rest
      ((m, m.mlen == 0) :: out.1, out.2)
    else
      let adv := mbuf_advance nsent m.mhdr
      let m1 := { m with mhdr := adv.1 }
      let out := msg_send_postprocess adv.2.1 rest
      ((m1, adv.2.2) :: out.1, out.2)

/-- The postprocess phase of `msg_send_chain` for a vectored-write return
value `n` (line 952: `nsent = n > 0 ? (size_t)n : 0`). -/
def msg_send_chain_post (n : Int) (q : List Msg) : List (Msg × Bool) × Nat :=
  msg_send_postprocess n.toNat q

/-- Unread bytes of a buffer chain: the sum of `[pos, last)` over its
members. -/
def bufsUnread (l : List Mbuf) : Nat :=
  (l.map mbuf_length).sum

/-- Unread bytes of a message: the sum of `[pos, last)` over its chain (the
bytes `msg_send_chain` would place in the iovec). -/
def msgUnread (m : Msg) : Nat :=
  (m.mhdr.map mbuf_length).sum

/-- Total unread bytes over a send queue. -/
def totalUnread (q : List Msg) : Nat :=
  (q.map msgUnread).sum

/-- One external call into the message pool: `_msg_get` (with its mode and
`dn_alloc` oracle) or `msg_put`. -/
inductive PoolOp where
  | get (force allocOk : Bool)
  | put (m : Msg)

/-- Effect of a pool call on the globals. -/
def poolStep (ALLOWED MAX : Nat) (s : MsgState) : PoolOp → MsgState
  | PoolOp.get force allocOk => (_msg_get ALLOWED MAX force allocOk s).2
  | PoolOp.put m => msg_put s m

/-- A sequence of pool calls. -/
def poolRun (ALLOWED MAX : Nat) (s : MsgState) (ops : List PoolOp) : MsgState :=
  ops.foldl (poolStep ALLOWED MAX) s

/-- A source message with two data-carrying buffers (3 and 2 bytes) whose
aggregate length invariant holds; used as a concrete clone source. -/
def cloneSrcEx : Msg :=
  { msgReset default 1 with
      mhdr := [{ start := 0, pos := 0, last := 3, mend := 512, endExtra := 640, readFlip := false },
               { start := 0, pos := 0, last := 2, mend := 512, endExtra := 640, readFlip := false }]
      mlen := 5 }

/-- A concrete external-mode connection used in witnesses. -/
def wConnExt : Conn := ⟨0, false, true, true, false, false, false, 0⟩

/-- A concrete buffer holding 3 bytes. -/
def wBuf3 : Mbuf := ⟨0, 0, 3, 8, 10, false⟩

/-- A concrete buffer holding 5 bytes. -/
def wBuf5 : Mbuf := ⟨0, 0, 5, 8, 10, false⟩

/-- A concrete message with one 3-byte buffer, used as a receive target. -/
def wRecvMsg : Msg := { msgReset default 1 with mhdr := [wBuf3], mlen := 3 }

/-- A concrete parsed message whose cursor sits 3 bytes into a 5-byte buffer. -/
def wSplitMsg : Msg :=
  { msgReset default 1 with mhdr := [wBuf5]
                            mlen := 5
                            pos := some 3
                            owner := some wConnExt
                            redis := true }

/-- Like `wSplitMsg` but without an owner (repair does not need one). -/
def wRepairMsg : Msg :=
  { msgReset default 1 with mhdr := [wBuf5], mlen := 5, pos := some 3 }

/-- A parsed multi-key request on an external redis client connection: one
20-byte buffer with the parse cursor 10 bytes in; the starting point of the
fragmentation scenarios. -/
def fragMsg0 : Msg :=
  { msgReset default 1 with
      mhdr := [{ start := 0, pos := 0, last := 20, mend := 512, endExtra := 640,
                 readFlip := false }]
      mlen := 20
      pos := some 10
      owner := some wConnExt
      request := true
      redis := true }

/-- Heap holding only the unfragmented request. -/
def fragHeap0 : List Msg := [fragMsg0]

/-- First `msg_fragment` call (on the unfragmented message at index 0), with
a 4-byte `pre_splitcopy` header and a 2-byte `post_splitcopy` patch. -/
def fragStep1 : Rstatus × List Msg × MsgState :=
  msg_fragment 16 32 fragHeap0 0 true 4 true 2 true 512 128 msgInitState

/-- Second `msg_fragment` call, on the newest member (index 1, the current
`last_fragment`), yielding a three-member group. -/
def fragStep2 : Rstatus × List Msg × MsgState :=
  msg_fragment 16 32 fragStep1.2.1 1 true 4 true 2 true 512 128 fragStep1.2.2

/-- Third `msg_fragment` call, this time on the *owner* (index 0), which is a
member but not the current `last_fragment`. -/
def fragStep3 : Rstatus × List Msg × MsgState :=
  msg_fragment 16 32 fragStep2.2.1 0 true 4 true 2 true 512 128 fragStep2.2.2

theorem _msg_get_count_le (ALLOWED MAX : Nat) (force allocOk : Bool) (s : MsgState)
    (h : s.alloc_msg_count ≤ MAX) :
    ((_msg_get ALLOWED MAX force allocOk s).2).alloc_msg_count ≤ MAX := by
  unfold _msg_get
  rcases hf : s.free_msgq with _ | ⟨m, rest⟩ <;> simp only [hf]
  · split_ifs <;> simp_all <;> omega
  · simpa using h

theorem poolRun_count_le (ALLOWED MAX : Nat) (s : MsgState) (ops : List PoolOp)
    (h : s.alloc_msg_count ≤ MAX) :
    (poolRun ALLOWED MAX s ops).alloc_msg_count ≤ MAX := by
  induction ops generalizing s with
  | nil => simpa [poolRun] using h
  | cons op rest ih =>
    have hstep : (poolStep ALLOWED MAX s op).alloc_msg_count ≤ MAX := by
      cases op with
      | get force allocOk => exact _msg_get_count_le ALLOWED MAX force allocOk s h
      | put m => simpa [poolStep, msg_put] using h
    simpa [poolRun, List.foldl_cons] using ih (poolStep ALLOWED MAX s op) hstep

/-- C3: with the free list empty, an external-mode `msg_get` returns NULL as
soon as `alloc_msg_count ≥ ALLOWED_ALLOC_MSGS`, an internal-mode `msg_get`
still succeeds while `alloc_msg_count < MAX_ALLOC_MSGS`, and for any sequence
of pool calls starting from `msg_init` the count of freshly allocated
messages never exceeds `MAX_ALLOC_MSGS`. -/
theorem msg_get_two_ceilings (ALLOWED MAX : Nat) (st : MsgState) (cE cI : Conn)
    (request redis : Bool)
    (hfree : st.free_msgq = [])
    (hE : cE.dyn_mode = false) (hI : cI.dyn_mode = true)
    (hA : ALLOWED ≤ st.alloc_msg_count) (hM : st.alloc_msg_count < MAX) :
    (msg_get ALLOWED MAX cE request redis true st).1 = none ∧
    ((msg_get ALLOWED MAX cI request redis true st).1).isSome = true ∧
    (∀ ops : List PoolOp, (poolRun ALLOWED MAX msgInitState ops).alloc_msg_count ≤ MAX) := by
  refine ⟨?_, ?_, fun ops => poolRun_count_le ALLOWED MAX msgInitState ops (by simp [msgInitState])⟩
  · unfold msg_get _msg_get
    simp [hfree, hE, hA]
  · unfold msg_get _msg_get
    simp only [hfree, hI]
    simp [Nat.not_le.mpr hM]

/-- Witness for C3 at `ALLOWED = 1`, `MAX = 3`, `alloc_msg_count = 2`. -/
theorem msg_get_two_ceilings_witness :
    (msg_get 1 3 ⟨0, false, true, true, false, false, false, 0⟩ true true true
        ⟨0, 0, 0, [], 2⟩).1 = none ∧
    ((msg_get 1 3 ⟨0, true, true, false, false, true, false, 0⟩ true true true
        ⟨0, 0, 0, [], 2⟩).1).isSome = true ∧
    (poolRun 1 3 msgInitState
        [PoolOp.get true true, PoolOp.get false true, PoolOp.get true true,
         PoolOp.get true true, PoolOp.get true true]).alloc_msg_count ≤ 3 := by
  have h := msg_get_two_ceilings 1 3 ⟨0, 0, 0, [], 2⟩
      ⟨0, false, true, true, false, false, false, 0⟩
      ⟨0, true, true, false, false, true, false, 0⟩
      true true rfl rfl rfl (by decide) (by decide)
  exact ⟨h.1, h.2.1, h.2.2 _⟩

/-- C10: whenever the free list is non-empty, `_msg_get` succeeds in every
mode without consulting `alloc_msg_count`: it pops the head of the free
list, reinitializes it with a fresh id, and leaves the allocation counter
untouched; in particular a `msg_put` followed by any `_msg_get` succeeds
regardless of the ceilings. -/
theorem msg_get_free_list_recycles (ALLOWED MAX : Nat) (st : MsgState) (m : Msg)
    (rest : List Msg) (force allocOk : Bool)
    (hfree : st.free_msgq = m :: rest) :
    _msg_get ALLOWED MAX force allocOk st =
      (some (msgReset m (st.msg_id + 1)),
        { st with nfree_msgq := st.nfree_msgq - 1, free_msgq := rest,
                  msg_id := st.msg_id + 1 }) ∧
    (∀ s : MsgState, ∀ m' : Msg,
        ((_msg_get ALLOWED MAX force allocOk (msg_put s m')).1).isSome = true) := by
  constructor
  · unfold _msg_get
    simp [hfree]
  · intro s m'
    unfold _msg_get msg_put
    simp

/-- Witness for C10: recycling from a one-element free list with the counter
far above both ceilings (`ALLOWED = 1`, `MAX = 2`, count `= 7`), in external
mode. -/
theorem msg_get_free_list_recycles_witness :
    _msg_get 1 2 false true ⟨5, 0, 1, [msgReset default 3], 7⟩ =
      (some (msgReset (msgReset default 3) 6), ⟨6, 0, 0, [], 7⟩) ∧
    (∀ s : MsgState, ∀ m' : Msg, ((_msg_get 1 2 false true (msg_put s m')).1).isSome = true) := by
  have h := msg_get_free_list_recycles 1 2 ⟨5, 0, 1, [msgReset default 3], 7⟩
      (msgReset default 3) [] false true rfl
  exact ⟨h.1, h.2⟩

/-- C7: when the parser leaves a result outside the four handled values, an
external-mode connection snapshots `errno` into `conn->err` and `msg_parse`
returns `DN_ERROR`, while an internal-mode connection (with no prior error)
swallows the parse error and returns `DN_OK` with the connection unchanged. -/
theorem msg_parse_error_branch (conn : Conn) (msg : Msg) (errno : Nat)
    (ps fs rs : Rstatus) (hne : msg_empty msg = false) :
    (conn.dyn_mode = false →
      msg_parse conn msg ParseResult.err ps fs rs errno =
        (Rstatus.error, { conn with err := errno })) ∧
    (conn.dyn_mode = true → conn.err = 0 →
      msg_parse conn msg ParseResult.err ps fs rs errno = (Rstatus.ok, conn)) := by
  constructor
  · intro hE
    unfold msg_parse
    simp only [hne, Bool.false_eq_true, if_false, hE]
    split <;> simp_all
  · intro hI herr
    unfold msg_parse
    simp [hne, hI, herr]

/-- Witness for C7: a one-byte message, `errno = 5`, on an external and an
internal connection. -/
theorem msg_parse_error_branch_witness :
    (msg_parse ⟨0, false, true, true, false, false, false, 0⟩
        { msgReset default 1 with mlen := 1 } ParseResult.err
        Rstatus.ok Rstatus.ok Rstatus.ok 5 =
      (Rstatus.error, ⟨0, false, true, true, false, false, false, 5⟩)) ∧
    (msg_parse ⟨0, true, true, false, false, true, false, 0⟩
        { msgReset default 1 with mlen := 1 } ParseResult.err
        Rstatus.ok Rstatus.ok Rstatus.ok 5 =
      (Rstatus.ok, ⟨0, true, true, false, false, true, false, 0⟩)) := by
  constructor
  · exact (msg_parse_error_branch ⟨0, false, true, true, false, false, false, 0⟩
      { msgReset default 1 with mlen := 1 } 5 Rstatus.ok Rstatus.ok Rstatus.ok
      (by decide)).1 rfl
  · exact (msg_parse_error_branch ⟨0, true, true, false, false, true, false, 0⟩
      { msgReset default 1 with mlen := 1 } 5 Rstatus.ok Rstatus.ok Rstatus.ok
      (by decide)).2 rfl rfl

theorem msg_clone_loop_enomem_shape (bufSize extra mbufStart : Nat) :
    ∀ (bufs : List Mbuf) (idx : Nat) (started : Bool) (t : Msg) (supply : Nat),
    (msg_clone_loop bufSize extra mbufStart bufs idx started t supply).1 = Rstatus.enomem →
    ((msg_clone_loop bufSize extra mbufStart bufs idx started t supply).2.1).mhdr.length
        = t.mhdr.length + supply ∧
    (msg_clone_loop bufSize extra mbufStart bufs idx started t supply).2.2 = 0 := by
  intro bufs
  induction bufs with
  | nil =>
    intro idx started t supply h
    simp [msg_clone_loop] at h
  | cons b rest ih =>
    intro idx started t supply h
    rw [msg_clone_loop] at h
    rw [msg_clone_loop]
    split_ifs at h with h1 h2
    · simp only [if_pos h1] at h ⊢
      exact ih (idx + 1) false t supply h
    · simp only [if_neg h1, if_pos h2]
      subst h2
      simp
    · simp only [if_neg h1, if_neg h2]
      have hr := ih (idx + 1) true { t with mhdr := t.mhdr ++ [mbuf_copy (mbuf_get_fresh bufSize extra) (mbuf_length b)] } (supply - 1) h
      simp only [List.length_append, List.length_cons, List.length_nil] at hr
      refine ⟨?_, hr.2⟩
      rw [hr.1]
      omega

/-- C8 (amended): when `msg_clone` fails mid-copy because the mbuf pool is
exhausted, it returns immediately with every mbuf it acquired still inserted
in the target's chain and none released back to the pool: the target chain
has grown by exactly the `supply` buffers the pool could still provide, and
the pool is left empty. -/
theorem msg_clone_failure_keeps_buffers (bufSize extra : Nat) (src : Msg)
    (mbufStart : Nat) (target : Msg) (supply : Nat)
    (hfail : (msg_clone bufSize extra src mbufStart target supply).1 = Rstatus.enomem) :
    ((msg_clone bufSize extra src mbufStart target supply).2.1).mhdr.length
        = target.mhdr.length + supply ∧
    (msg_clone bufSize extra src mbufStart target supply).2.2 = 0 := by
  unfold msg_clone at hfail ⊢
  exact msg_clone_loop_enomem_shape bufSize extra mbufStart src.mhdr 0 false _ supply hfail

/-- Counterexample to C8 as stated: cloning a two-buffer source with a pool
that can supply only one mbuf fails with `ENOMEM`, yet the one acquired
buffer has *not* been released — it remains attached to the target's chain
and the pool is left exhausted, contradicting the claim that every acquired
mbuf is released back to the pool before `msg_clone` returns. -/
theorem msg_clone_counterexample :
    (msg_clone 512 128 cloneSrcEx 0 (msgReset default 2) 1).1 = Rstatus.enomem ∧
    ((msg_clone 512 128 cloneSrcEx 0 (msgReset default 2) 1).2.1).mhdr ≠ [] ∧
    ((msg_clone 512 128 cloneSrcEx 0 (msgReset default 2) 1).2.1).mhdr.length = 1 ∧
    (msg_clone 512 128 cloneSrcEx 0 (msgReset default 2) 1).2.2 = 0 := by
  decide

theorem mlenInv_get (ALLOWED MAX : Nat) (force allocOk : Bool) (st : MsgState)
    (m : Msg) (st' : MsgState)
    (h : _msg_get ALLOWED MAX force allocOk st = (some m, st')) : msgLenInv m := by
  unfold _msg_get at h
  rcases hf : st.free_msgq with _ | ⟨m0, rest⟩ <;> rw [hf] at h
  · split_ifs at h <;> simp_all <;> simp [msgLenInv, msgReset, msg_length, ← h.1]
  · simp only [Prod.mk.injEq, Option.some.injEq] at h
    simp [msgLenInv, msgReset, msg_length, ← h.1]

theorem mlenInv_put_get (ALLOWED MAX : Nat) (force allocOk : Bool) (st : MsgState)
    (m0 m : Msg) (st' : MsgState)
    (h : _msg_get ALLOWED MAX force allocOk (msg_put st m0) = (some m, st')) :
    msgLenInv m :=
  mlenInv_get ALLOWED MAX force allocOk (msg_put st m0) m st' h

theorem msg_clone_loop_all (bufSize extra mbufStart : Nat) :
    ∀ (bufs : List Mbuf) (idx : Nat) (started : Bool) (t : Msg) (supply : Nat),
    (started = true ∨ idx = mbufStart) → bufs.length ≤ supply →
    msg_clone_loop bufSize extra mbufStart bufs idx started t supply =
      (Rstatus.ok,
       { t with mhdr := t.mhdr ++
           bufs.map (fun b => mbuf_copy (mbuf_get_fresh bufSize extra) (mbuf_length b)) },
       supply - bufs.length) := by
  intro bufs
  induction bufs with
  | nil =>
    intro idx started t supply _ _
    simp [msg_clone_loop]
  | cons b rest ih =>
    intro idx started t supply hcov hsup
    have hnotskip : ¬(¬started = true ∧ idx ≠ mbufStart) := by
      rcases hcov with h | h <;> simp [h]
    have hpos : ¬(supply = 0) := by
      simp only [List.length_cons] at hsup
      omega
    rw [msg_clone_loop, if_neg hnotskip, if_neg hpos]
    rw [ih (idx + 1) true _ (supply - 1) (Or.inl rfl) (by simp at hsup ⊢; omega)]
    simp only [List.map_cons, Prod.mk.injEq, true_and]
    constructor
    · congr 1
      simp [List.append_assoc]
    · simp only [List.length_cons] at hsup ⊢
      omega

theorem mlenInv_clone (bufSize extra : Nat) (src target : Msg) (supply : Nat)
    (hpos : ∀ b ∈ src.mhdr, b.pos = b.start) (hinv : msgLenInv src)
    (htgt : target.mhdr = []) (hsup : src.mhdr.length ≤ supply) :
    (msg_clone bufSize extra src 0 target supply).1 = Rstatus.ok ∧
    msgLenInv (msg_clone bufSize extra src 0 target supply).2.1 := by
  unfold msg_clone
  rw [msg_clone_loop_all bufSize extra 0 src.mhdr 0 false _ supply (Or.inr rfl) hsup]
  refine ⟨rfl, ?_⟩
  simp only [msgLenInv, msg_length, htgt, List.nil_append, List.map_map]
  have hmaps : src.mhdr.map ((fun b => b.last - b.start) ∘
        (fun b => mbuf_copy (mbuf_get_fresh bufSize extra) (mbuf_length b))) =
      src.mhdr.map (fun b => b.last - b.start) := by
    refine List.map_congr_left ?_
    intro b hb
    simp [mbuf_copy, mbuf_get_fresh, mbuf_length, hpos b hb]
  rw [hmaps]
  simpa [msgLenInv, msg_length] using hinv

theorem msgBind_mhdr (c : Conn) (r d : Bool) (m : Msg) : (msgBind c r d m).mhdr = m.mhdr := by
  unfold msgBind; split_ifs <;> rfl

theorem msgBind_mlen (c : Conn) (r d : Bool) (m : Msg) : (msgBind c r d m).mlen = m.mlen := by
  unfold msgBind; split_ifs <;> rfl

theorem msgBind_request (c : Conn) (r d : Bool) (m : Msg) : (msgBind c r d m).request = r := by
  unfold msgBind; split_ifs <;> rfl

theorem msgBind_redis (c : Conn) (r d : Bool) (m : Msg) : (msgBind c r d m).redis = d := by
  unfold msgBind; split_ifs <;> rfl

theorem msgBind_frag_id (c : Conn) (r d : Bool) (m : Msg) :
    (msgBind c r d m).frag_id = m.frag_id := by
  unfold msgBind; split_ifs <;> rfl

theorem msgBind_first_fragment (c : Conn) (r d : Bool) (m : Msg) :
    (msgBind c r d m).first_fragment = m.first_fragment := by
  unfold msgBind; split_ifs <;> rfl

theorem msgBind_last_fragment (c : Conn) (r d : Bool) (m : Msg) :
    (msgBind c r d m).last_fragment = m.last_fragment := by
  unfold msgBind; split_ifs <;> rfl

theorem msgBind_nfrag (c : Conn) (r d : Bool) (m : Msg) : (msgBind c r d m).nfrag = m.nfrag := by
  unfold msgBind; split_ifs <;> rfl

theorem msgBind_frag_owner (c : Conn) (r d : Bool) (m : Msg) :
    (msgBind c r d m).frag_owner = m.frag_owner := by
  unfold msgBind; split_ifs <;> rfl

theorem msgBind_owner (c : Conn) (r d : Bool) (m : Msg) : (msgBind c r d m).owner = some c := by
  unfold msgBind; split_ifs <;> rfl

theorem msgBind_pos (c : Conn) (r d : Bool) (m : Msg) : (msgBind c r d m).pos = m.pos := by
  unfold msgBind; split_ifs <;> rfl

theorem msgBind_id (c : Conn) (r d : Bool) (m : Msg) : (msgBind c r d m).id = m.id := by
  unfold msgBind; split_ifs <;> rfl

theorem msgBind_dmsg (c : Conn) (r d : Bool) (m : Msg) : (msgBind c r d m).dmsg = m.dmsg := by
  unfold msgBind; split_ifs <;> rfl

theorem msg_get_success_eq (ALLOWED MAX : Nat) (oc : Conn) (request redis : Bool)
    (st : MsgState)
    (hfree : st.free_msgq = []) (hA : st.alloc_msg_count < ALLOWED)
    (hM : st.alloc_msg_count < MAX) :
    msg_get ALLOWED MAX oc request redis true st =
      (some (msgBind oc request redis (msgReset (msgReset default 0) (st.msg_id + 1))),
       { st with alloc_msg_count := st.alloc_msg_count + 1, msg_id := st.msg_id + 1 }) := by
  unfold msg_get _msg_get
  rw [hfree]
  simp [Nat.not_le.mpr hA, Nat.not_le.mpr hM]

theorem mlenInv_recv (msg : Msg) (bufSize extra n : Nat) (decOk : Bool) (decLen : Nat → Nat)
    (hdm : msg.dmsg = none) (hwf : ∀ b ∈ msg.mhdr, b.start ≤ b.last)
    (hinv : msgLenInv msg) :
    msgLenInv (msg_recv_chain_read msg true bufSize extra (ReadRes.bytes n) decOk decLen).msg := by
  rcases List.eq_nil_or_concat msg.mhdr with hch | ⟨pre, tl, hch⟩
  · have hml : msg.mlen = 0 := by simpa [msgLenInv, msg_length, hch] using hinv
    unfold msg_recv_chain_read
    rw [hdm, hch]
    simp [msgLenInv, msg_length, mbuf_get_fresh, hml]
  · have htl : tl.start ≤ tl.last := hwf tl (by rw [hch]; simp)
    have hinv' : msg.mlen = (pre.map (fun b => b.last - b.start)).sum + (tl.last - tl.start) := by
      simpa [msgLenInv, msg_length, hch] using hinv
    unfold msg_recv_chain_read
    rw [hdm, hch]
    by_cases hfull : mbuf_full tl = true
    · simp [hfull, hch, List.getLast?_concat, List.dropLast_concat, msgLenInv, msg_length,
        mbuf_get_fresh]
      omega
    · simp [hfull, hch, List.getLast?_concat, List.dropLast_concat, msgLenInv, msg_length]
      omega

theorem mlenInv_parsed (ALLOWED MAX : Nat) (conn : Conn) (msg : Msg) (oc : Conn)
    (pre : List Mbuf) (tl : Mbuf) (p : Nat) (bufSize extra : Nat) (st : MsgState)
    (how : msg.owner = some oc) (hpos : msg.pos = some p)
    (hch : msg.mhdr = pre ++ [tl]) (h1 : tl.start ≤ p) (h2 : p ≤ tl.last)
    (hinv : msgLenInv msg)
    (hfree : st.free_msgq = []) (hA : st.alloc_msg_count < ALLOWED)
    (hM : st.alloc_msg_count < MAX) :
    msgLenInv (msg_parsed ALLOWED MAX conn msg true true bufSize extra st).msg ∧
    (∀ nm, (msg_parsed ALLOWED MAX conn msg true true bufSize extra st).nmsg = some nm →
      msgLenInv nm) := by
  have hinv' : msg.mlen = (pre.map (fun b => b.last - b.start)).sum + (tl.last - tl.start) := by
    simpa [msgLenInv, msg_length, hch] using hinv
  unfold msg_parsed mbuf_split_at
  rw [hch, hpos, how]
  simp only [List.getLast?_concat, List.dropLast_concat]
  by_cases hp : p = tl.last
  · simp only [hp, if_pos rfl]
    exact ⟨hinv, by intro nm h; simp at h⟩
  · rw [if_neg hp]
    rw [msg_get_success_eq ALLOWED MAX oc msg.request conn.redis st hfree hA hM]
    simp only [if_neg (by simp : ¬(¬True))] at *
    constructor
    · simp [msgLenInv, msg_length, mbuf_copy, mbuf_get_fresh, mbuf_length,
        msgBind_mlen, msgBind_mhdr]
      omega
    · intro nm hnm
      simp only [Option.some.injEq] at hnm
      subst hnm
      simp [msgLenInv, msg_length, mbuf_copy, mbuf_get_fresh, mbuf_length]

theorem getElem?_some_lt (l : List Msg) (i : Nat) (a : Msg) (h : l[i]? = some a) :
    i < l.length := by
  by_contra hc
  rw [List.getElem?_eq_none_iff.mpr (Nat.le_of_not_lt hc)] at h
  cases h

theorem getElem?_set_concat {α : Type} {l : List α} {i : Nat} (a b : α)
    (h : i < l.length) : ((l.set i a) ++ [b])[i]? = some a := by
  rw [List.getElem?_append_left (by simpa using h)]
  exact List.getElem?_set_self (by simpa using h)

theorem getElem?_set_concat_length {α : Type} (l : List α) (i : Nat) (a b : α) :
    ((l.set i a) ++ [b])[l.length]? = some b := by
  have hl : l.length = (l.set i a).length := (List.length_set l i a).symm
  rw [hl]
  exact List.getElem?_concat_length (l.set i a) b

theorem getElem?_set_concat_ne {α : Type} {l : List α} {i k : Nat} (a b : α)
    (hk : k < l.length) (hne : k ≠ i) : ((l.set i a) ++ [b])[k]? = l[k]? := by
  rw [List.getElem?_append_left (by simpa using hk)]
  exact List.getElem?_set_ne (fun he => hne he.symm)

theorem getElem?_set_concat_set_self {α : Type} {l : List α} {i o : Nat} (a b c : α)
    (h : o < l.length) : (((l.set i a) ++ [b]).set o c)[o]? = some c := by
  apply List.getElem?_set_self
  simp
  omega

theorem msg_fragment_first (A M : Nat) (heap : List Msg) (i : Nat) (m : Msg) (oc : Conn)
    (pre : List Mbuf) (tl : Mbuf) (p preLen postLen bufSize extra : Nat) (st : MsgState)
    (hi : heap[i]? = some m) (how : m.owner = some oc) (hpos : m.pos = some p)
    (hch : m.mhdr = pre ++ [tl]) (hf0 : m.frag_id = 0)
    (hfree : st.free_msgq = []) (hA : st.alloc_msg_count < A) (hM : st.alloc_msg_count < M)
    (h1 : tl.start ≤ p) (h2 : p ≤ tl.last) :
    (msg_fragment A M heap i true preLen true postLen true bufSize extra st).1 = Rstatus.ok ∧
    ((msg_fragment A M heap i true preLen true postLen true bufSize extra st).2.1).length =
      heap.length + 1 ∧
    (((msg_fragment A M heap i true preLen true postLen true bufSize extra st).2.1)[i]?).map
      Msg.frag_id = some (st.frag_id + 1) ∧
    (((msg_fragment A M heap i true preLen true postLen true bufSize extra st).2.1)[i]?).map
      Msg.first_fragment = some true ∧
    (((msg_fragment A M heap i true preLen true postLen true bufSize extra st).2.1)[i]?).map
      Msg.last_fragment = some false ∧
    (((msg_fragment A M heap i true preLen true postLen true bufSize extra st).2.1)[i]?).map
      Msg.nfrag = some 2 ∧
    (((msg_fragment A M heap i true preLen true postLen true bufSize extra st).2.1)[i]?).map
      Msg.frag_owner = some (some i) ∧
    (((msg_fragment A M heap i true preLen true postLen true bufSize extra st).2.1)[i]?).map
      Msg.mlen = some (m.mlen - (preLen + (tl.last - p))) ∧
    (((msg_fragment A M heap i true preLen true postLen true bufSize extra st).2.1)[i]?).map
      msg_length = some ((pre.map (fun b => b.last - b.start)).sum + (p + postLen - tl.start)) ∧
    (((msg_fragment A M heap i true preLen true postLen true bufSize extra st).2.1)[heap.length]?).map
      Msg.frag_id = some (st.frag_id + 1) ∧
    (((msg_fragment A M heap i true preLen true postLen true bufSize extra st).2.1)[heap.length]?).map
      Msg.first_fragment = some false ∧
    (((msg_fragment A M heap i true preLen true postLen true bufSize extra st).2.1)[heap.length]?).map
      Msg.last_fragment = some true ∧
    (((msg_fragment A M heap i true preLen true postLen true bufSize extra st).2.1)[heap.length]?).map
      Msg.frag_owner = some (some i) ∧
    (((msg_fragment A M heap i true preLen true postLen true bufSize extra st).2.1)[heap.length]?).map
      Msg.nfrag = some 0 ∧
    (((msg_fragment A M heap i true preLen true postLen true bufSize extra st).2.1)[heap.length]?).map
      Msg.mlen = some (preLen + (tl.last - p)) ∧
    (((msg_fragment A M heap i true preLen true postLen true bufSize extra st).2.1)[heap.length]?).map
      msg_length = some (preLen + (tl.last - p)) ∧
    ((msg_fragment A M heap i true preLen true postLen true bufSize extra st).2.2).frag_id =
      st.frag_id + 1 := by
  have hilt : i < heap.length := getElem?_some_lt heap i m hi
  have hine : i ≠ heap.length := Nat.ne_of_lt hilt
  unfold msg_fragment mbuf_split_at postPatch
  simp only [hi, hpos, how, hch, List.getLast?_concat, List.dropLast_concat,
    msg_get_success_eq A M oc m.request m.redis st hfree hA hM, hf0,
    eq_self_iff_true, not_true, ite_false, if_false, ite_true, if_true,
    getElem?_set_concat _ _ hilt]
  rw [List.set_append_left _ _ (by simpa using hilt), List.set_set]
  and_intros
  all_goals first
    | trivial
    | (rw [getElem?_set_concat _ _ hilt]
       simp [mbuf_length, mbuf_copy, mbuf_get_fresh, msg_length]
       done)
    | (rw [getElem?_set_concat _ _ hilt]
       simp [mbuf_length, mbuf_copy, mbuf_get_fresh, msg_length]
       omega)
    | (rw [getElem?_set_concat_length]
       simp [mbuf_length, mbuf_copy, mbuf_get_fresh, msg_length, msgBind_frag_id,
         msgBind_first_fragment, msgBind_last_fragment, msgBind_nfrag, msgBind_frag_owner,
         msgBind_mlen, msgBind_mhdr, msgReset]
       done)
    | (rw [getElem?_set_concat_length]
       simp [mbuf_length, mbuf_copy, mbuf_get_fresh, msg_length, msgBind_frag_id,
         msgBind_first_fragment, msgBind_last_fragment, msgBind_nfrag, msgBind_frag_owner,
         msgBind_mlen, msgBind_mhdr, msgReset]
       omega)
    | simp
    | omega

theorem msg_fragment_next (A M : Nat) (heap : List Msg) (i o : Nat) (m om : Msg) (oc : Conn)
    (pre : List Mbuf) (tl : Mbuf) (p preLen postLen bufSize extra : Nat) (st : MsgState)
    (hi : heap[i]? = some m) (how : m.owner = some oc) (hpos : m.pos = some p)
    (hch : m.mhdr = pre ++ [tl]) (hfz : ¬m.frag_id = 0)
    (ho : m.frag_owner = some o) (hom : heap[o]? = some om)
    (hfree : st.free_msgq = []) (hA : st.alloc_msg_count < A) (hM : st.alloc_msg_count < M)
    (h1 : tl.start ≤ p) (h2 : p ≤ tl.last) :
    (msg_fragment A M heap i true preLen true postLen true bufSize extra st).1 = Rstatus.ok ∧
    ((msg_fragment A M heap i true preLen true postLen true bufSize extra st).2.1).length =
      heap.length + 1 ∧
    (((msg_fragment A M heap i true preLen true postLen true bufSize extra st).2.1)[heap.length]?).map
      Msg.frag_id = some m.frag_id ∧
    (((msg_fragment A M heap i true preLen true postLen true bufSize extra st).2.1)[heap.length]?).map
      Msg.frag_owner = some (some o) ∧
    (((msg_fragment A M heap i true preLen true postLen true bufSize extra st).2.1)[heap.length]?).map
      Msg.last_fragment = some true ∧
    (((msg_fragment A M heap i true preLen true postLen true bufSize extra st).2.1)[heap.length]?).map
      Msg.first_fragment = some false ∧
    (((msg_fragment A M heap i true preLen true postLen true bufSize extra st).2.1)[heap.length]?).map
      Msg.nfrag = some 0 ∧
    (((msg_fragment A M heap i true preLen true postLen true bufSize extra st).2.1)[heap.length]?).map
      Msg.mlen = some (preLen + (tl.last - p)) ∧
    (((msg_fragment A M heap i true preLen true postLen true bufSize extra st).2.1)[heap.length]?).map
      msg_length = some (preLen + (tl.last - p)) ∧
    (((msg_fragment A M heap i true preLen true postLen true bufSize extra st).2.1)[o]?).map
      Msg.nfrag = some (om.nfrag + 1) ∧
    (((msg_fragment A M heap i true preLen true postLen true bufSize extra st).2.1)[o]?).map
      Msg.frag_id = some om.frag_id ∧
    (¬o = i →
      (((msg_fragment A M heap i true preLen true postLen true bufSize extra st).2.1)[o]?).map
        Msg.last_fragment = some om.last_fragment) ∧
    (((msg_fragment A M heap i true preLen true postLen true bufSize extra st).2.1)[i]?).map
      Msg.last_fragment = some false ∧
    (((msg_fragment A M heap i true preLen true postLen true bufSize extra st).2.1)[i]?).map
      Msg.frag_id = some m.frag_id ∧
    (((msg_fragment A M heap i true preLen true postLen true bufSize extra st).2.1)[i]?).map
      Msg.first_fragment = some m.first_fragment ∧
    (((msg_fragment A M heap i true preLen true postLen true bufSize extra st).2.1)[i]?).map
      Msg.mlen = some (m.mlen - (preLen + (tl.last - p))) ∧
    (((msg_fragment A M heap i true preLen true postLen true bufSize extra st).2.1)[i]?).map
      msg_length = some ((pre.map (fun b => b.last - b.start)).sum + (p + postLen - tl.start)) ∧
    (∀ k, k < heap.length → k ≠ i → k ≠ o →
      ((msg_fragment A M heap i true preLen true postLen true bufSize extra st).2.1)[k]? =
        heap[k]?) ∧
    ((msg_fragment A M heap i true preLen true postLen true bufSize extra st).2.2).frag_id =
      st.frag_id := by
  have hilt : i < heap.length := getElem?_some_lt heap i m hi
  have holt : o < heap.length := getElem?_some_lt heap o om hom
  have hine : i ≠ heap.length := Nat.ne_of_lt hilt
  have hone : o ≠ heap.length := Nat.ne_of_lt holt
  by_cases hoi : o = i
  · subst hoi
    have hmm : m = om := by
      rw [hi] at hom
      exact (Option.some.injEq _ _).mp hom
    subst hmm
    unfold msg_fragment mbuf_split_at postPatch
    simp only [hi, hpos, how, hch, List.getLast?_concat, List.dropLast_concat,
      msg_get_success_eq A M oc m.request m.redis st hfree hA hM, if_neg hfz, ho,
      eq_self_iff_true, not_true, ite_false, if_false, ite_true, if_true,
      getElem?_set_concat _ _ hilt]
    rw [List.set_append_left _ _ (by simpa using hilt), List.set_set]
    and_intros
    all_goals first
      | trivial
      | (exact fun hx => absurd rfl hx)
      | (intro k hk hki hko
         rw [getElem?_set_concat_ne _ _ hk hki]
         done)
      | (rw [getElem?_set_concat _ _ hilt]
         simp [mbuf_length, mbuf_copy, mbuf_get_fresh, msg_length]
         done)
      | (rw [getElem?_set_concat _ _ hilt]
         simp [mbuf_length, mbuf_copy, mbuf_get_fresh, msg_length]
         omega)
      | (rw [getElem?_set_concat_length]
         simp [mbuf_length, mbuf_copy, mbuf_get_fresh, msg_length, msgBind_frag_id,
           msgBind_first_fragment, msgBind_last_fragment, msgBind_nfrag, msgBind_frag_owner,
           msgBind_mlen, msgBind_mhdr, msgReset]
         done)
      | (rw [getElem?_set_concat_length]
         simp [mbuf_length, mbuf_copy, mbuf_get_fresh, msg_length, msgBind_frag_id,
           msgBind_first_fragment, msgBind_last_fragment, msgBind_nfrag, msgBind_frag_owner,
           msgBind_mlen, msgBind_mhdr, msgReset]
         omega)
      | simp
      | omega
  · unfold msg_fragment mbuf_split_at postPatch
    simp only [hi, hpos, how, hch, List.getLast?_concat, List.dropLast_concat,
      msg_get_success_eq A M oc m.request m.redis st hfree hA hM, if_neg hfz, ho,
      eq_self_iff_true, not_true, ite_false, if_false, ite_true, if_true,
      getElem?_set_concat_ne _ _ holt hoi, hom]
    and_intros
    all_goals first
      | trivial
      | (intro k hk hki hko
         rw [List.getElem?_set_ne (fun he => hko he.symm), getElem?_set_concat_ne _ _ hk hki]
         done)
      | (intro hx
         rw [getElem?_set_concat_set_self _ _ _ holt]
         simp
         done)
      | (rw [List.getElem?_set_ne hone, getElem?_set_concat_length]
         simp [mbuf_length, mbuf_copy, mbuf_get_fresh, msg_length, msgBind_frag_id,
           msgBind_first_fragment, msgBind_last_fragment, msgBind_nfrag, msgBind_frag_owner,
           msgBind_mlen, msgBind_mhdr, msgReset]
         done)
      | (rw [List.getElem?_set_ne hone, getElem?_set_concat_length]
         simp [mbuf_length, mbuf_copy, mbuf_get_fresh, msg_length, msgBind_frag_id,
           msgBind_first_fragment, msgBind_last_fragment, msgBind_nfrag, msgBind_frag_owner,
           msgBind_mlen, msgBind_mhdr, msgReset]
         omega)
      | (rw [getElem?_set_concat_set_self _ _ _ holt]
         simp
         done)
      | (rw [List.getElem?_set_ne hoi, getElem?_set_concat _ _ hilt]
         simp [mbuf_length, mbuf_copy, mbuf_get_fresh, msg_length]
         done)
      | (rw [List.getElem?_set_ne hoi, getElem?_set_concat _ _ hilt]
         simp [mbuf_length, mbuf_copy, mbuf_get_fresh, msg_length]
         omega)
      | (simp
         done)
      | omega

theorem mlenInv_repair (msg : Msg) (p : Nat) (pre : List Mbuf) (tl : Mbuf)
    (bufSize extra : Nat)
    (hpos : msg.pos = some p) (hch : msg.mhdr = pre ++ [tl])
    (h1 : tl.start ≤ p) (h2 : p ≤ tl.last) (hinv : msgLenInv msg) :
    msgLenInv (msg_repair msg true bufSize extra).2 := by
  have hinv' : msg.mlen = (pre.map (fun b => b.last - b.start)).sum + (tl.last - tl.start) := by
    simpa [msgLenInv, msg_length, hch] using hinv
  unfold msg_repair mbuf_split_at
  rw [hpos, hch]
  simp [List.getLast?_concat, List.dropLast_concat, msgLenInv, msg_length,
    mbuf_copy, mbuf_get_fresh]
  omega

/-- C1 (amended): (a) a successful `msg_fragment` on an unfragmented message
(`frag_id == 0`) establishes the fan-out group: the message becomes its own
`frag_owner` with `nfrag == 2`, `first_fragment = 1`, `last_fragment = 0`,
and the new message shares the same non-zero `frag_id` with
`first_fragment = 0`, `last_fragment = 1`; (b) each further successful
`msg_fragment` on *any* member adds exactly one sibling sharing the group's
`frag_id` (every existing message keeps its `frag_id`) and increments
`frag_owner->nfrag` by one; (c) when the fragmented member is the one
currently holding the group's unique `last_fragment` flag — as is the case
for the receive path, which always continues on the newest fragment — the
flag moves to the newest member and remains unique.  (Fragmenting any other
member duplicates the flag; see the counterexample.) -/
theorem msg_fragment_group_invariant (bufSize extra : Nat) :
    (∀ A M heap i m oc pre tl p preLen postLen st,
      heap[i]? = some m → m.owner = some oc → m.pos = some p → m.mhdr = pre ++ [tl] →
      tl.start ≤ p → p ≤ tl.last → m.frag_id = 0 →
      st.free_msgq = [] → st.alloc_msg_count < A → st.alloc_msg_count < M →
      (msg_fragment A M heap i true preLen true postLen true bufSize extra st).1 =
        Rstatus.ok ∧
      ((msg_fragment A M heap i true preLen true postLen true bufSize extra st).2.1).length =
        heap.length + 1 ∧
      st.frag_id + 1 ≠ 0 ∧
      (((msg_fragment A M heap i true preLen true postLen true bufSize extra st).2.1)[i]?).map
        Msg.frag_id = some (st.frag_id + 1) ∧
      (((msg_fragment A M heap i true preLen true postLen true bufSize extra st).2.1)[i]?).map
        Msg.frag_owner = some (some i) ∧
      (((msg_fragment A M heap i true preLen true postLen true bufSize extra st).2.1)[i]?).map
        Msg.nfrag = some 2 ∧
      (((msg_fragment A M heap i true preLen true postLen true bufSize extra st).2.1)[i]?).map
        Msg.first_fragment = some true ∧
      (((msg_fragment A M heap i true preLen true postLen true bufSize extra st).2.1)[i]?).map
        Msg.last_fragment = some false ∧
      (((msg_fragment A M heap i true preLen true postLen true bufSize extra st).2.1)[heap.length]?).map
        Msg.frag_id = some (st.frag_id + 1) ∧
      (((msg_fragment A M heap i true preLen true postLen true bufSize extra st).2.1)[heap.length]?).map
        Msg.frag_owner = some (some i) ∧
      (((msg_fragment A M heap i true preLen true postLen true bufSize extra st).2.1)[heap.length]?).map
        Msg.first_fragment = some false ∧
      (((msg_fragment A M heap i true preLen true postLen true bufSize extra st).2.1)[heap.length]?).map
        Msg.last_fragment = some true) ∧
    (∀ A M heap i o m om oc pre tl p preLen postLen st,
      heap[i]? = some m → m.owner = some oc → m.pos = some p → m.mhdr = pre ++ [tl] →
      tl.start ≤ p → p ≤ tl.last → ¬m.frag_id = 0 →
      m.frag_owner = some o → heap[o]? = some om →
      st.free_msgq = [] → st.alloc_msg_count < A → st.alloc_msg_count < M →
      (msg_fragment A M heap i true preLen true postLen true bufSize extra st).1 =
        Rstatus.ok ∧
      ((msg_fragment A M heap i true preLen true postLen true bufSize extra st).2.1).length =
        heap.length + 1 ∧
      (((msg_fragment A M heap i true preLen true postLen true bufSize extra st).2.1)[heap.length]?).map
        Msg.frag_id = some m.frag_id ∧
      (((msg_fragment A M heap i true preLen true postLen true bufSize extra st).2.1)[heap.length]?).map
        Msg.frag_owner = some (some o) ∧
      (((msg_fragment A M heap i true preLen true postLen true bufSize extra st).2.1)[o]?).map
        Msg.nfrag = some (om.nfrag + 1) ∧
      (∀ k, k < heap.length →
        (((msg_fragment A M heap i true preLen true postLen true bufSize extra st).2.1)[k]?).map
          Msg.frag_id = (heap[k]?).map Msg.frag_id)) ∧
    (∀ A M heap i o m om oc pre tl p preLen postLen st,
      heap[i]? = some m → m.owner = some oc → m.pos = some p → m.mhdr = pre ++ [tl] →
      tl.start ≤ p → p ≤ tl.last → ¬m.frag_id = 0 →
      m.frag_owner = some o → heap[o]? = some om →
      st.free_msgq = [] → st.alloc_msg_count < A → st.alloc_msg_count < M →
      m.last_fragment = true →
      (∀ k, k < heap.length → k ≠ i → (heap[k]?).map Msg.last_fragment = some false) →
      (((msg_fragment A M heap i true preLen true postLen true bufSize extra st).2.1)[heap.length]?).map
        Msg.last_fragment = some true ∧
      (∀ k, k < heap.length →
        (((msg_fragment A M heap i true preLen true postLen true bufSize extra st).2.1)[k]?).map
          Msg.last_fragment = some false)) := by
  refine ⟨?_, ?_, ?_⟩
  · intro A M heap i m oc pre tl p preLen postLen st hi how hpos hch h1 h2 hf0 hfree hA hM
    obtain ⟨hs, hlen, hfi, hff, hfl, hfn, hfo, _, _, hnf, hnw, hnl, hno, hnn, _, _, _⟩ :=
      msg_fragment_first A M heap i m oc pre tl p preLen postLen bufSize extra st
        hi how hpos hch hf0 hfree hA hM h1 h2
    exact ⟨hs, hlen, Nat.succ_ne_zero st.frag_id, hfi, hfo, hfn, hff, hfl, hnf, hno, hnw, hnl⟩
  · intro A M heap i o m om oc pre tl p preLen postLen st hi how hpos hch h1 h2 hfz ho hom
      hfree hA hM
    obtain ⟨hs, hlen, hnf, hno, _, _, _, _, _, hbn, hbf, _, _, hif, _, _, _, hk, _⟩ :=
      msg_fragment_next A M heap i o m om oc pre tl p preLen postLen bufSize extra st
        hi how hpos hch hfz ho hom hfree hA hM h1 h2
    refine ⟨hs, hlen, hnf, hno, hbn, ?_⟩
    intro k hk2
    by_cases hki : k = i
    · subst hki
      rw [hif, hi]
      simp
    · by_cases hko : k = o
      · subst hko
        rw [hbf, hom]
        simp
      · rw [hk k hk2 hki hko]
  · intro A M heap i o m om oc pre tl p preLen postLen st hi how hpos hch h1 h2 hfz ho hom
      hfree hA hM _hlast huniq
    obtain ⟨_, _, _, _, hnl, _, _, _, _, _, _, hol, hil, _, _, _, _, hk, _⟩ :=
      msg_fragment_next A M heap i o m om oc pre tl p preLen postLen bufSize extra st
        hi how hpos hch hfz ho hom hfree hA hM h1 h2
    refine ⟨hnl, ?_⟩
    intro k hk2
    by_cases hki : k = i
    · subst hki
      exact hil
    · by_cases hko : k = o
      · subst hko
        have hone : ¬k = i := hki
        have := huniq k hk2 hki
        rw [hom] at this
        simp at this
        rw [hol hone, this]
      · rw [hk k hk2 hki hko]
        exact huniq k hk2 hki

/-- Counterexample to C1 as stated: starting from an unfragmented request,
two fragmentations on the newest member build a three-member group whose
unique `last_fragment` holder is index 2; a further successful
`msg_fragment` on the *owner* (index 0, a member of the group) then leaves
`last_fragment = 1` on BOTH index 2 and the new index 3 — the code clears
the flag only on the message it is fragmenting (line 678), so the unique
flag does not move to the newest member when any other member is
fragmented. -/
theorem msg_fragment_group_counterexample :
    fragStep3.1 = Rstatus.ok ∧
    ((fragStep2.2.1)[0]?).map Msg.last_fragment = some false ∧
    ((fragStep2.2.1)[1]?).map Msg.last_fragment = some false ∧
    ((fragStep2.2.1)[2]?).map Msg.last_fragment = some true ∧
    ((fragStep3.2.1)[2]?).map Msg.last_fragment = some true ∧
    ((fragStep3.2.1)[3]?).map Msg.last_fragment = some true := by
  decide

/-- Witness for the amended C1 theorem on the concrete fragmentation
scenario: part (a) at the first split, parts (b) and (c) at the second split
(performed on the newest member, index 1). -/
theorem msg_fragment_group_invariant_witness :
    (fragStep1.1 = Rstatus.ok ∧
     ((fragStep1.2.1)[0]?).map Msg.nfrag = some 2 ∧
     ((fragStep1.2.1)[0]?).map Msg.frag_owner = some (some 0) ∧
     ((fragStep1.2.1)[0]?).map Msg.frag_id = some 1 ∧
     ((fragStep1.2.1)[1]?).map Msg.frag_id = some 1 ∧
     ((fragStep1.2.1)[0]?).map Msg.first_fragment = some true ∧
     ((fragStep1.2.1)[0]?).map Msg.last_fragment = some false ∧
     ((fragStep1.2.1)[1]?).map Msg.first_fragment = some false ∧
     ((fragStep1.2.1)[1]?).map Msg.last_fragment = some true) ∧
    (fragStep2.1 = Rstatus.ok ∧
     ((fragStep2.2.1)[0]?).map Msg.nfrag = some 3 ∧
     ((fragStep2.2.1)[2]?).map Msg.frag_id =
       some (((fragStep1.2.1)[1]?).getD default).frag_id) ∧
    (((fragStep2.2.1)[2]?).map Msg.last_fragment = some true ∧
     ((fragStep2.2.1)[0]?).map Msg.last_fragment = some false ∧
     ((fragStep2.2.1)[1]?).map Msg.last_fragment = some false) := by
  have ha := (msg_fragment_group_invariant 512 128).1 16 32 fragHeap0 0 fragMsg0 wConnExt
    [] { start := 0, pos := 0, last := 20, mend := 512, endExtra := 640, readFlip := false }
    10 4 2 msgInitState (by decide) (by decide) (by decide) (by decide) (by decide)
    (by decide) (by decide) rfl (by decide) (by decide)
  have hb := (msg_fragment_group_invariant 512 128).2.1 16 32 fragStep1.2.1 1 0
    (((fragStep1.2.1)[1]?).getD default) (((fragStep1.2.1)[0]?).getD default) wConnExt
    [] { start := 0, pos := 0, last := 14, mend := 512, endExtra := 640, readFlip := false }
    0 4 2 fragStep1.2.2 (by decide) (by decide) (by decide) (by decide) (by decide)
    (by decide) (by decide) (by decide) (by decide) (by decide) (by decide) (by decide)
  have hc := (msg_fragment_group_invariant 512 128).2.2 16 32 fragStep1.2.1 1 0
    (((fragStep1.2.1)[1]?).getD default) (((fragStep1.2.1)[0]?).getD default) wConnExt
    [] { start := 0, pos := 0, last := 14, mend := 512, endExtra := 640, readFlip := false }
    0 4 2 fragStep1.2.2 (by decide) (by decide) (by decide) (by decide) (by decide)
    (by decide) (by decide) (by decide) (by decide) (by decide) (by decide) (by decide)
    (by decide) (by decide)
  refine ⟨⟨ha.1, ha.2.2.2.2.2.1, ha.2.2.2.2.1, ha.2.2.2.1, ?_, ha.2.2.2.2.2.2.1,
      ha.2.2.2.2.2.2.2.1, ?_, ?_⟩, ⟨hb.1, ?_, ?_⟩, ⟨?_, ?_, ?_⟩⟩
  · have h := ha.2.2.2.2.2.2.2.2.1
    simpa [fragHeap0] using h
  · have h := ha.2.2.2.2.2.2.2.2.2.2.1
    simpa [fragHeap0] using h
  · have h := ha.2.2.2.2.2.2.2.2.2.2.2
    simpa [fragHeap0] using h
  · have h := hb.2.2.2.2.1
    simpa [show (((fragStep1.2.1)[0]?).getD default).nfrag = 2 from by decide] using h
  · have h := hb.2.2.1
    have hlen : fragStep1.2.1.length = 2 := by decide
    rw [hlen] at h
    exact h
  · have h := hc.1
    have hlen : fragStep1.2.1.length = 2 := by decide
    rw [hlen] at h
    exact h
  · exact hc.2 0 (by decide)
  · exact hc.2 1 (by decide)

theorem mbuf_empty_length (b : Mbuf) (h : mbuf_empty b = true) : mbuf_length b = 0 := by
  simp only [mbuf_empty, beq_iff_eq] at h
  simp [mbuf_length, h]

theorem mbuf_advance_spec :
    ∀ (bufs : List Mbuf) (nsent : Nat),
    bufsUnread (mbuf_advance nsent bufs).1 =
      bufsUnread bufs - min nsent (bufsUnread bufs) ∧
    (mbuf_advance nsent bufs).2.1 = nsent - min nsent (bufsUnread bufs) ∧
    ((mbuf_advance nsent bufs).2.2 = true ↔ bufsUnread bufs ≤ nsent) := by
  intro bufs
  induction bufs with
  | nil =>
    intro nsent
    simp [mbuf_advance, bufsUnread]
  | cons b rest ih =>
    intro nsent
    rw [mbuf_advance]
    by_cases hb : mbuf_empty b = true
    · have hlb : mbuf_length b = 0 := mbuf_empty_length b hb
      obtain ⟨i1, i2, i3⟩ := ih nsent
      simp only [hb, eq_self_iff_true, ite_true, if_true]
      refine ⟨?_, ?_, ?_⟩
      · simp only [bufsUnread, List.map_cons, List.sum_cons, hlb] at *
        omega
      · simp only [bufsUnread, List.map_cons, List.sum_cons, hlb] at *
        omega
      · simp only [bufsUnread, List.map_cons, List.sum_cons, hlb] at *
        rw [i3]
        omega
    · rw [if_neg hb]
      by_cases hlt : nsent < mbuf_length b
      · rw [if_pos hlt]
        simp only [mbuf_length] at hlt
        refine ⟨?_, ?_, ?_⟩
        · simp only [bufsUnread, List.map_cons, List.sum_cons, mbuf_length]
          omega
        · simp only [bufsUnread, List.map_cons, List.sum_cons, mbuf_length]
          omega
        · simp only [bufsUnread, List.map_cons, List.sum_cons, mbuf_length,
            Bool.false_eq_true, false_iff]
          omega
      · rw [if_neg hlt]
        simp only [mbuf_length] at hlt
        obtain ⟨i1, i2, i3⟩ := ih (nsent - mbuf_length b)
        refine ⟨?_, ?_, ?_⟩
        · simp only [bufsUnread, List.map_cons, List.sum_cons, mbuf_length] at *
          omega
        · simp only [bufsUnread, List.map_cons, List.sum_cons, mbuf_length] at *
          omega
        · simp only [bufsUnread, List.map_cons, List.sum_cons, mbuf_length] at *
          rw [i3]
          omega

theorem msg_send_postprocess_spec :
    ∀ (q : List Msg) (nsent : Nat),
    (∀ m ∈ q, (m.mlen = 0 ↔ msgUnread m = 0)) →
    totalUnread ((msg_send_postprocess nsent q).1.map Prod.fst) =
      totalUnread q - min nsent (totalUnread q) ∧
    (msg_send_postprocess nsent q).2 = nsent - min nsent (totalUnread q) ∧
    ((msg_send_postprocess nsent q).1.map Prod.fst).map Msg.id = q.map Msg.id ∧
    (∀ pr ∈ (msg_send_postprocess nsent q).1, (pr.2 = true ↔ msgUnread pr.1 = 0)) ∧
    (∀ pr ∈ (msg_send_postprocess nsent q).1, pr.1.mlen = 0 → pr.2 = true) := by
  intro q
  induction q with
  | nil =>
    intro nsent _
    simp [msg_send_postprocess, totalUnread]
  | cons m rest ih =>
    intro nsent hq
    have hm := hq m (by simp)
    simp only [msgUnread, bufsUnread] at hm
    have hrest : ∀ m' ∈ rest, (m'.mlen = 0 ↔ msgUnread m' = 0) :=
      fun m' hm' => hq m' (by simp [hm'])
    rw [msg_send_postprocess]
    by_cases h0 : nsent = 0
    · subst h0
      obtain ⟨i1, i2, i3, i4, i5⟩ := ih 0 hrest
      simp only [eq_self_iff_true, ite_true, if_true, List.map_cons, totalUnread,
        List.sum_cons, msgUnread, bufsUnread] at i1 i2 ⊢
      refine ⟨?_, ?_, ?_, ?_, ?_⟩
      · omega
      · omega
      · simpa using i3
      · intro pr hpr
        rcases List.mem_cons.mp hpr with hpr | hpr
        · subst hpr
          simpa [msgUnread, bufsUnread] using hm
        · exact i4 pr hpr
      · intro pr hpr
        rcases List.mem_cons.mp hpr with hpr | hpr
        · subst hpr
          intro hml
          simp only at hml
          simpa using hml
        · exact i5 pr hpr
    · obtain ⟨a1, a2, a3⟩ := mbuf_advance_spec m.mhdr nsent
      obtain ⟨i1, i2, i3, i4, i5⟩ := ih (mbuf_advance nsent m.mhdr).2.1 hrest
      simp only [if_neg h0, List.map_cons, totalUnread, List.sum_cons, msgUnread,
        bufsUnread] at a1 a2 a3 i1 i2 ⊢
      refine ⟨?_, ?_, ?_, ?_, ?_⟩
      · omega
      · omega
      · simpa using i3
      · intro pr hpr
        rcases List.mem_cons.mp hpr with hpr | hpr
        · subst hpr
          simp only [msgUnread, bufsUnread]
          rw [a3]
          omega
        · exact i4 pr hpr
      · intro pr hpr
        rcases List.mem_cons.mp hpr with hpr | hpr
        · subst hpr
          intro hml
          simp only at hml
          rw [a3]
          omega
        · exact i5 pr hpr

/-- C5: for a single `msg_send_chain` postprocess with vectored-write return
`n`, over an in-flight queue whose messages satisfy the reachable-state
property `mlen == 0 ↔ no unread bytes`, and with `max(n,0)` no larger than
the queued unread bytes (`conn_sendv` never reports more than it was asked
to write): the total number of bytes by which the `pos` fields advance
equals `max(n,0)`; the queue is processed in enqueue order (same messages,
same order); a message receives `send_done` exactly when its buffers are
fully drained afterwards; and a message with `mlen == 0` receives
`send_done` even when `n == 0`. -/
theorem msg_send_chain_postprocess (n : Int) (q : List Msg)
    (hq : ∀ m ∈ q, (m.mlen = 0 ↔ msgUnread m = 0))
    (hn : n.toNat ≤ totalUnread q) :
    totalUnread ((msg_send_chain_post n q).1.map Prod.fst) + n.toNat = totalUnread q ∧
    ((msg_send_chain_post n q).1.map Prod.fst).map Msg.id = q.map Msg.id ∧
    (∀ pr ∈ (msg_send_chain_post n q).1, (pr.2 = true ↔ msgUnread pr.1 = 0)) ∧
    (∀ pr ∈ (msg_send_chain_post n q).1, pr.1.mlen = 0 → pr.2 = true) := by
  obtain ⟨i1, i2, i3, i4, i5⟩ := msg_send_postprocess_spec q n.toNat hq
  refine ⟨?_, i3, i4, i5⟩
  unfold msg_send_chain_post
  rw [i1]
  omega

/-- Witness for C5: two queued messages of 3 and 2 unread bytes with a
partial write of 4 bytes; and the `mlen == 0` case at `n == 0`. -/
theorem msg_send_chain_postprocess_witness :
    totalUnread ((msg_send_chain_post 4 [wRecvMsg,
      { msgReset default 2 with mhdr := [⟨0, 0, 2, 8, 10, false⟩], mlen := 2 }]).1.map
        Prod.fst) + (4 : Int).toNat =
      totalUnread [wRecvMsg,
        { msgReset default 2 with mhdr := [⟨0, 0, 2, 8, 10, false⟩], mlen := 2 }] ∧
    (∀ pr ∈ (msg_send_chain_post 0 [msgReset default 3]).1, pr.1.mlen = 0 → pr.2 = true) := by
  constructor
  · exact (msg_send_chain_postprocess 4 [wRecvMsg,
      { msgReset default 2 with mhdr := [⟨0, 0, 2, 8, 10, false⟩], mlen := 2 }]
      (by decide) (by decide)).1
  · exact (msg_send_chain_postprocess 0 [msgReset default 3] (by decide) (by decide)).2.2.2

/-- C6: on an encrypted receive (`dmsg` present with `bit_field == 1`, read
into a not-yet-full tail buffer), after a successful read of `n` bytes the
code decrypts exactly when `n ≥ dmsg->plen` or the buffer's `last` has
reached `end_extra` (otherwise decryption is delayed); it decrypts
`[start, start+plen)` — or `[start, last)` when `last == end_extra` — into a
freshly obtained buffer, copies the ciphertext remainder beyond the `plen`
boundary into it, swaps it for the ciphertext buffer at the tail of the
chain with `read_flip = 1`, rebases `msg->pos`, updates `mlen` by replacing
the ciphertext length with the plaintext length, and in every encrypted
case decrements `dmsg->plen` by `n`.  The read size handed to `conn_recv`
is `min(plen, end_extra − last)`. -/
theorem msg_recv_chain_read_encrypted (msg : Msg) (plen n bufSize extra : Nat)
    (pre : List Mbuf) (tl : Mbuf) (decLen : Nat → Nat)
    (hdm : msg.dmsg = some { bit_field := 1, plen := plen })
    (hch : msg.mhdr = pre ++ [tl])
    (hfull : mbuf_full tl = false)
    (hee : ¬tl.last = tl.endExtra) :
    (msg_recv_chain_read msg true bufSize extra (ReadRes.bytes n) true decLen).status =
      Rstatus.ok ∧
    (msg_recv_chain_read msg true bufSize extra (ReadRes.bytes n) true decLen).msize =
      min plen (tl.endExtra - tl.last) ∧
    (((msg_recv_chain_read msg true bufSize extra (ReadRes.bytes n) true decLen).decEvent).isSome
       = true ↔ (n ≥ plen ∨ tl.endExtra = tl.last + n)) ∧
    (msg_recv_chain_read msg true bufSize extra (ReadRes.bytes n) true decLen).msg.dmsg =
      some { bit_field := 1, plen := plen - n } ∧
    (tl.endExtra = tl.last + n →
      (msg_recv_chain_read msg true bufSize extra (ReadRes.bytes n) true decLen).decEvent =
        some (tl.last + n - tl.start, 0) ∧
      (msg_recv_chain_read msg true bufSize extra (ReadRes.bytes n) true decLen).msg.mhdr =
        pre ++ [{ mbuf_copy (mbuf_copy (mbuf_get_fresh bufSize extra)
                    (decLen (tl.last + n - tl.start))) 0 with readFlip := true }] ∧
      (msg_recv_chain_read msg true bufSize extra (ReadRes.bytes n) true decLen).msg.pos =
        some 0 ∧
      (msg_recv_chain_read msg true bufSize extra (ReadRes.bytes n) true decLen).msg.mlen =
        msg.mlen + n - (tl.last + n - tl.start) + (decLen (tl.last + n - tl.start) + 0)) ∧
    (¬tl.endExtra = tl.last + n → n ≥ plen →
      (msg_recv_chain_read msg true bufSize extra (ReadRes.bytes n) true decLen).decEvent =
        some (plen, tl.last + n - tl.start - plen) ∧
      (msg_recv_chain_read msg true bufSize extra (ReadRes.bytes n) true decLen).msg.mhdr =
        pre ++ [{ mbuf_copy (mbuf_copy (mbuf_get_fresh bufSize extra) (decLen plen))
                    (tl.last + n - tl.start - plen) with readFlip := true }] ∧
      (msg_recv_chain_read msg true bufSize extra (ReadRes.bytes n) true decLen).msg.pos =
        some 0 ∧
      (msg_recv_chain_read msg true bufSize extra (ReadRes.bytes n) true decLen).msg.mlen =
        msg.mlen + n - (tl.last + n - tl.start) +
          (decLen plen + (tl.last + n - tl.start - plen))) ∧
    (¬(n ≥ plen ∨ tl.endExtra = tl.last + n) →
      (msg_recv_chain_read msg true bufSize extra (ReadRes.bytes n) true decLen).decEvent =
        none ∧
      (msg_recv_chain_read msg true bufSize extra (ReadRes.bytes n) true decLen).msg.mhdr =
        pre ++ [{ tl with last := tl.last + n }] ∧
      (msg_recv_chain_read msg true bufSize extra (ReadRes.bytes n) true decLen).msg.mlen =
        msg.mlen + n) := by
  have hbe : (tl.last == tl.endExtra) = false := by
    simp [hee]
  unfold msg_recv_chain_read
  simp only [hdm, hch, List.getLast?_concat, List.dropLast_concat, hfull, hbe,
    eq_self_iff_true, ite_true, if_true, ite_false, if_false, Bool.false_or,
    Bool.and_false, Bool.false_and, Option.isSome_some, Bool.false_eq_true,
    false_and, not_false_iff, and_false]
  by_cases hc2 : tl.endExtra = tl.last + n
  · have hcond : n ≥ plen ∨ ({ tl with last := tl.last + n } : Mbuf).endExtra =
        ({ tl with last := tl.last + n } : Mbuf).last := by
      right
      simpa using hc2
    have hcin : ({ tl with last := tl.last + n } : Mbuf).endExtra =
        ({ tl with last := tl.last + n } : Mbuf).last := by simpa using hc2
    rw [if_pos hcond, if_pos hcin, if_pos hcin]
    refine ⟨rfl, rfl, by simp [hc2], rfl, ?_, ?_, ?_⟩
    · intro _
      refine ⟨by simp, ?_, by simp [mbuf_copy, mbuf_get_fresh], ?_⟩
      · simp [mbuf_copy, mbuf_get_fresh]
      · simp [mbuf_copy, mbuf_get_fresh]
    · intro h
      exact absurd hc2 h
    · intro h
      exact absurd (Or.inr hc2) h
  · by_cases hc1 : n ≥ plen
    · have hcond : n ≥ plen ∨ ({ tl with last := tl.last + n } : Mbuf).endExtra =
          ({ tl with last := tl.last + n } : Mbuf).last := Or.inl hc1
      have hcin : ¬(({ tl with last := tl.last + n } : Mbuf).endExtra =
          ({ tl with last := tl.last + n } : Mbuf).last) := by simpa using hc2
      rw [if_pos hcond, if_neg hcin, if_neg hcin]
      refine ⟨rfl, rfl, by simp [hc1], rfl, ?_, ?_, ?_⟩
      · intro h
        exact absurd h hc2
      · intro _ _
        refine ⟨by simp, ?_, by simp [mbuf_copy, mbuf_get_fresh], ?_⟩
        · simp [mbuf_copy, mbuf_get_fresh]
        · simp [mbuf_copy, mbuf_get_fresh]
      · intro h
        exact absurd (Or.inl hc1) h
    · have hcond : ¬(n ≥ plen ∨ ({ tl with last := tl.last + n } : Mbuf).endExtra =
          ({ tl with last := tl.last + n } : Mbuf).last) := by
        rintro (h | h)
        · exact hc1 h
        · exact hc2 (by simpa using h)
      rw [if_neg hcond]
      refine ⟨rfl, rfl, by simp [hc1, hc2], rfl, ?_, ?_, ?_⟩
      · intro h
        exact absurd h hc2
      · intro _ h2
        exact absurd h2 hc1
      · intro _
        exact ⟨rfl, rfl, rfl⟩

/-- Witness for C6: a 10-byte ciphertext frame read in one 10-byte chunk into
an empty 16-byte buffer (`n = plen = 10` triggers the decrypt), with a
decrypt primitive returning 7 plaintext bytes. -/
theorem msg_recv_chain_read_encrypted_witness :
    (msg_recv_chain_read
      { msgReset default 1 with
          mhdr := [{ start := 0, pos := 0, last := 0, mend := 16, endExtra := 20,
                     readFlip := false }]
          dmsg := some { bit_field := 1, plen := 10 } }
      true 16 4 (ReadRes.bytes 10) true (fun _ => 7)).status = Rstatus.ok ∧
    (msg_recv_chain_read
      { msgReset default 1 with
          mhdr := [{ start := 0, pos := 0, last := 0, mend := 16, endExtra := 20,
                     readFlip := false }]
          dmsg := some { bit_field := 1, plen := 10 } }
      true 16 4 (ReadRes.bytes 10) true (fun _ => 7)).msg.dmsg =
      some { bit_field := 1, plen := 0 } ∧
    (msg_recv_chain_read
      { msgReset default 1 with
          mhdr := [{ start := 0, pos := 0, last := 0, mend := 16, endExtra := 20,
                     readFlip := false }]
          dmsg := some { bit_field := 1, plen := 10 } }
      true 16 4 (ReadRes.bytes 10) true (fun _ => 7)).decEvent = some (10, 0) := by
  have h := msg_recv_chain_read_encrypted
    { msgReset default 1 with
        mhdr := [{ start := 0, pos := 0, last := 0, mend := 16, endExtra := 20,
                   readFlip := false }]
        dmsg := some { bit_field := 1, plen := 10 } }
    10 10 16 4 [] { start := 0, pos := 0, last := 0, mend := 16, endExtra := 20,
                    readFlip := false }
    (fun _ => 7) (by decide) (by decide) (by decide) (by decide)
  refine ⟨h.1, h.2.2.2.1, ?_⟩
  have h6 := h.2.2.2.2.2.1 (by decide) (by decide)
  simpa using h6.1

/-- C9: for `dyn_err` equal to `PEER_CONNECTION_REFUSE` or
`STORAGE_CONNECTION_REFUSE`, `msg_get_error` produces a message holding
exactly one mbuf formatted `"-ERR <source> <reason>\r\n"` for Redis and
`"SERVER_ERROR <source> <reason>\r\n"` for Memcached, with `<source>` =
`"Peer:"` / `"Storage:"` and `<reason>` the `strerror` text, or `"unknown"`
when `err == 0`; `mlen` equals the formatted length, the message is typed
`MSG_RSP_MC_SERVER_ERROR`, and the allocation force-bypasses the soft
ceiling (it succeeds with `alloc_msg_count` at or above
`ALLOWED_ALLOC_MSGS`). -/
theorem msg_get_error_spec (ALLOWED MAX : Nat) (redis : Bool) (err : Nat)
    (strerror : Nat → String) (bufSize extra : Nat) (st : MsgState)
    (hfree : st.free_msgq = []) (hA : ALLOWED ≤ st.alloc_msg_count)
    (hM : st.alloc_msg_count < MAX) :
    (∀ dyn_err source,
      ((dyn_err = DynError.peerConnectionRefuse ∧ source = "Peer:") ∨
       (dyn_err = DynError.storageConnectionRefuse ∧ source = "Storage:")) →
      ((msg_get_error ALLOWED MAX redis dyn_err err strerror true bufSize extra true st).1).isSome
        = true ∧
      (∀ mm c,
        (msg_get_error ALLOWED MAX redis dyn_err err strerror true bufSize extra true st).1 =
          some (mm, c) →
        c = (if redis then "-ERR" else "SERVER_ERROR") ++ " " ++ source ++ " " ++
              (if err ≠ 0 then strerror err else "unknown") ++ CRLF ∧
        mm.mlen = c.length ∧
        mm.mhdr.length = 1 ∧
        mm.mhdr.map (fun b => b.last - b.start) = [c.length] ∧
        mm.type = MSG_RSP_MC_SERVER_ERROR)) := by
  have hget : _msg_get ALLOWED MAX true true st =
      (some (msgReset (msgReset default 0) (st.msg_id + 1)),
       { st with alloc_msg_count := st.alloc_msg_count + 1, msg_id := st.msg_id + 1 }) := by
    unfold _msg_get
    rw [hfree]
    simp [Nat.not_le.mpr hM]
  rintro dyn_err source (⟨hde, hsrc⟩ | ⟨hde, hsrc⟩) <;>
    (subst hde
     subst hsrc
     unfold msg_get_error
     rw [hget]
     simp only [eq_self_iff_true, not_true, ite_false, if_false, ite_true, if_true,
       Option.isSome_some, true_and]
     intro mm c hmc
     simp only [Option.some.injEq, Prod.mk.injEq] at hmc
     obtain ⟨hmm, hc⟩ := hmc
     subst hmm
     subst hc
     refine ⟨rfl, rfl, rfl, ?_, rfl⟩
     simp [mbuf_copy, mbuf_get_fresh])

/-- Witness for C9: a Redis peer-refused error with `errno = 111` and the
counter sitting at the soft ceiling (`ALLOWED = 1 ≤ 2 < 3 = MAX`). -/
theorem msg_get_error_spec_witness :
    (∀ mm c,
      (msg_get_error 1 3 true DynError.peerConnectionRefuse 111
        (fun _ => "Connection refused") true 512 128 true ⟨0, 0, 0, [], 2⟩).1 =
          some (mm, c) →
      c = "-ERR" ++ " " ++ "Peer:" ++ " " ++ "Connection refused" ++ CRLF ∧
      mm.mlen = c.length ∧
      mm.mhdr.length = 1 ∧
      mm.mhdr.map (fun b => b.last - b.start) = [c.length] ∧
      mm.type = MSG_RSP_MC_SERVER_ERROR) ∧
    ((msg_get_error 1 3 true DynError.peerConnectionRefuse 111
      (fun _ => "Connection refused") true 512 128 true ⟨0, 0, 0, [], 2⟩).1).isSome = true := by
  have h := msg_get_error_spec 1 3 true 111 (fun _ => "Connection refused") 512 128
    ⟨0, 0, 0, [], 2⟩ rfl (by decide) (by decide) DynError.peerConnectionRefuse "Peer:"
    (Or.inl ⟨rfl, rfl⟩)
  refine ⟨?_, h.1⟩
  intro mm c hmc
  have h2 := h.2 mm c hmc
  simpa using h2

/-- C2 (amended): the invariant `mlen == Σ (mb.last − mb.start)` over the
buffer chain (a) holds for every message returned by `_msg_get`, both fresh
and recycled after a `msg_put`; (b) is preserved by the receive append step
(unencrypted `msg_recv_chain` read); (c) is preserved for both messages by
the `msg_parsed` split; (d) for `msg_fragment`, holds for the new fragment,
while the original message's `mlen` drops by the full tail length including
the `pre_splitcopy` header and its chain changes by the unparsed bytes plus
the `post_splitcopy` patch, so the invariant is preserved for the original
exactly when both callbacks contribute zero bytes; (e) is preserved by
`msg_repair`; (f) for `msg_clone`, is preserved for the target exactly in
the head-to-tail unread case — cloning from the chain head with every buffer
unread — because the code copies `src->mlen` wholesale. -/
theorem msg_mlen_invariant (bufSize extra : Nat) :
    (∀ A M force allocOk st m st',
      _msg_get A M force allocOk st = (some m, st') → msgLenInv m) ∧
    (∀ A M force allocOk st m0 m st',
      _msg_get A M force allocOk (msg_put st m0) = (some m, st') → msgLenInv m) ∧
    (∀ (msg : Msg) (n : Nat) (decOk : Bool) (decLen : Nat → Nat),
      msg.dmsg = none → (∀ b ∈ msg.mhdr, b.start ≤ b.last) → msgLenInv msg →
      msgLenInv (msg_recv_chain_read msg true bufSize extra (ReadRes.bytes n) decOk decLen).msg) ∧
    (∀ A M conn msg oc pre tl p st,
      msg.owner = some oc → msg.pos = some p → msg.mhdr = pre ++ [tl] →
      tl.start ≤ p → p ≤ tl.last → msgLenInv msg →
      st.free_msgq = [] → st.alloc_msg_count < A → st.alloc_msg_count < M →
      msgLenInv (msg_parsed A M conn msg true true bufSize extra st).msg ∧
      (∀ nm, (msg_parsed A M conn msg true true bufSize extra st).nmsg = some nm →
        msgLenInv nm)) ∧
    (∀ A M heap i m oc pre tl p preLen postLen st,
      heap[i]? = some m → m.owner = some oc → m.pos = some p → m.mhdr = pre ++ [tl] →
      tl.start ≤ p → p ≤ tl.last → msgLenInv m →
      st.free_msgq = [] → st.alloc_msg_count < A → st.alloc_msg_count < M →
      (m.frag_id = 0 ∨ (∃ o om, m.frag_owner = some o ∧ heap[o]? = some om)) →
      (msg_fragment A M heap i true preLen true postLen true bufSize extra st).1 =
        Rstatus.ok ∧
      (∀ nm, ((msg_fragment A M heap i true preLen true postLen true bufSize extra st).2.1)[heap.length]?
          = some nm → msgLenInv nm) ∧
      (((msg_fragment A M heap i true preLen true postLen true bufSize extra st).2.1)[i]?).map
        Msg.mlen = some (m.mlen - (preLen + (tl.last - p))) ∧
      (((msg_fragment A M heap i true preLen true postLen true bufSize extra st).2.1)[i]?).map
        msg_length = some (msg_length m - (tl.last - p) + postLen) ∧
      (preLen = 0 → postLen = 0 →
        ∀ mm, ((msg_fragment A M heap i true preLen true postLen true bufSize extra st).2.1)[i]?
            = some mm → msgLenInv mm)) ∧
    (∀ msg p pre tl,
      msg.pos = some p → msg.mhdr = pre ++ [tl] → tl.start ≤ p → p ≤ tl.last →
      msgLenInv msg → msgLenInv (msg_repair msg true bufSize extra).2) ∧
    (∀ src target supply,
      (∀ b ∈ src.mhdr, b.pos = b.start) → msgLenInv src → target.mhdr = [] →
      src.mhdr.length ≤ supply →
      (msg_clone bufSize extra src 0 target supply).1 = Rstatus.ok ∧
      msgLenInv (msg_clone bufSize extra src 0 target supply).2.1) := by
  refine ⟨fun A M f ok st m st' h => mlenInv_get A M f ok st m st' h,
    fun A M f ok st m0 m st' h => mlenInv_put_get A M f ok st m0 m st' h,
    fun msg n decOk decLen hdm hwf hinv =>
      mlenInv_recv msg bufSize extra n decOk decLen hdm hwf hinv,
    fun A M conn msg oc pre tl p st how hpos hch h1 h2 hinv hfree hA hM =>
      mlenInv_parsed A M conn msg oc pre tl p bufSize extra st how hpos hch h1 h2 hinv
        hfree hA hM,
    ?_,
    fun msg p pre tl hpos hch h1 h2 hinv =>
      mlenInv_repair msg p pre tl bufSize extra hpos hch h1 h2 hinv,
    fun src target supply hpos hinv htgt hsup =>
      mlenInv_clone bufSize extra src target supply hpos hinv htgt hsup⟩
  intro A M heap i m oc pre tl p preLen postLen st hi how hpos hch h1 h2 hinv hfree hA hM hcase
  have hinv' : m.mlen = (pre.map (fun b => b.last - b.start)).sum + (tl.last - tl.start) := by
    simpa [msgLenInv, msg_length, hch] using hinv
  have hlm : msg_length m = (pre.map (fun b => b.last - b.start)).sum + (tl.last - tl.start) := by
    simp [msg_length, hch]
  by_cases hf0 : m.frag_id = 0
  · obtain ⟨hs, _, _, _, _, _, _, hmi, hli, _, _, _, _, _, hmn, hln, _⟩ :=
      msg_fragment_first A M heap i m oc pre tl p preLen postLen bufSize extra st
        hi how hpos hch hf0 hfree hA hM h1 h2
    refine ⟨hs, ?_, hmi, ?_, ?_⟩
    · intro nm hnm
      rw [hnm] at hmn hln
      simp at hmn hln
      simp [msgLenInv, hmn, hln]
    · rw [hli, hlm]
      congr 1
      omega
    · intro hpre hpost mm hmm
      subst hpre
      subst hpost
      rw [hmm] at hmi hli
      simp at hmi hli
      simp only [msgLenInv]
      rw [hmi, hli]
      omega
  · obtain ⟨o, om, ho, hom⟩ : ∃ o om, m.frag_owner = some o ∧ heap[o]? = some om := by
      rcases hcase with h | h
      · exact absurd h hf0
      · exact h
    obtain ⟨hs, _, _, _, _, _, _, hmn, hln, _, _, _, _, _, _, hmi, hli, _, _⟩ :=
      msg_fragment_next A M heap i o m om oc pre tl p preLen postLen bufSize extra st
        hi how hpos hch hf0 ho hom hfree hA hM h1 h2
    refine ⟨hs, ?_, hmi, ?_, ?_⟩
    · intro nm hnm
      rw [hnm] at hmn hln
      simp at hmn hln
      simp [msgLenInv, hmn, hln]
    · rw [hli, hlm]
      congr 1
      omega
    · intro hpre hpost mm hmm
      subst hpre
      subst hpost
      rw [hmm] at hmi hli
      simp at hmi hli
      simp only [msgLenInv]
      rw [hmi, hli]
      omega

/-- C4: on `MSG_PARSE_OK`, when `msg->pos` equals the tail mbuf's `last`,
`msg_parsed` calls `recv_done(msg, NULL)` and leaves everything unchanged;
otherwise it splits the chain at `msg->pos`, attaches the tail buffer to a
freshly obtained message that inherits the direction flag and (through
`conn->redis`, equal to the message's own dialect on any reachable state)
the dialect, sets the new message's `mlen` to the tail length, decreases the
original's `mlen` by the same amount so that the two sum to the original
length, and calls `recv_done(msg, nmsg)`. -/
theorem msg_parsed_spec (ALLOWED MAX : Nat) (conn : Conn) (msg : Msg) (oc : Conn)
    (pre : List Mbuf) (tl : Mbuf) (p bufSize extra : Nat) (st : MsgState)
    (how : msg.owner = some oc) (hpos : msg.pos = some p) (hch : msg.mhdr = pre ++ [tl])
    (h1 : tl.start ≤ p) (h2 : p ≤ tl.last) (hinv : msgLenInv msg)
    (hred : conn.redis = msg.redis)
    (hfree : st.free_msgq = []) (hA : st.alloc_msg_count < ALLOWED)
    (hM : st.alloc_msg_count < MAX) :
    (p = tl.last →
      msg_parsed ALLOWED MAX conn msg true true bufSize extra st =
        { status := Rstatus.ok, msg := msg, nmsg := none, st := st, recvDone := true }) ∧
    (¬p = tl.last →
      (msg_parsed ALLOWED MAX conn msg true true bufSize extra st).status = Rstatus.ok ∧
      (msg_parsed ALLOWED MAX conn msg true true bufSize extra st).recvDone = true ∧
      ((msg_parsed ALLOWED MAX conn msg true true bufSize extra st).nmsg).isSome = true ∧
      (msg_parsed ALLOWED MAX conn msg true true bufSize extra st).msg.mhdr =
        pre ++ [{ tl with last := p }] ∧
      (msg_parsed ALLOWED MAX conn msg true true bufSize extra st).msg.mlen =
        msg.mlen - (tl.last - p) ∧
      (∀ nm, (msg_parsed ALLOWED MAX conn msg true true bufSize extra st).nmsg = some nm →
        nm.request = msg.request ∧ nm.redis = msg.redis ∧
        nm.mlen = tl.last - p ∧ nm.mhdr.length = 1 ∧ msg_length nm = tl.last - p ∧
        nm.pos = some 0 ∧
        nm.mlen + (msg_parsed ALLOWED MAX conn msg true true bufSize extra st).msg.mlen =
          msg.mlen)) := by
  have hinv' : msg.mlen = (pre.map (fun b => b.last - b.start)).sum + (tl.last - tl.start) := by
    simpa [msgLenInv, msg_length, hch] using hinv
  constructor
  · intro hp
    unfold msg_parsed
    simp only [hch, hpos, how, List.getLast?_concat, hp, eq_self_iff_true, ite_true, if_true]
  · intro hp
    unfold msg_parsed mbuf_split_at
    simp only [hch, hpos, how, List.getLast?_concat, List.dropLast_concat,
      msg_get_success_eq ALLOWED MAX oc msg.request conn.redis st hfree hA hM,
      if_neg hp, eq_self_iff_true, not_true, ite_false, if_false, ite_true, if_true]
    and_intros
    all_goals first
      | trivial
      | (simp [mbuf_length, mbuf_copy, mbuf_get_fresh]
         done)
      | (intro nm hnm
         simp only [Option.some.injEq] at hnm
         subst hnm
         and_intros
         all_goals first
           | trivial
           | (simp [msgBind_request]
              done)
           | (simp [msgBind_redis, hred]
              done)
           | (simp [mbuf_length, mbuf_copy, mbuf_get_fresh]
              done)
           | (simp [msg_length, mbuf_length, mbuf_copy, mbuf_get_fresh]
              done)
           | (simp [mbuf_length, mbuf_copy, mbuf_get_fresh, msgBind_mlen]
              omega))

/-- Witness for C4: the no-unparsed-bytes branch (`pos == last`) and the
split branch (`pos` three bytes into a five-byte buffer) at concrete
inputs. -/
theorem msg_parsed_spec_witness :
    (msg_parsed 4 8 wConnExt { wSplitMsg with pos := some 5 } true true 8 2 msgInitState =
      { status := Rstatus.ok, msg := { wSplitMsg with pos := some 5 }, nmsg := none,
        st := msgInitState, recvDone := true }) ∧
    (msg_parsed 4 8 wConnExt wSplitMsg true true 8 2 msgInitState).msg.mlen = 3 ∧
    (∀ nm, (msg_parsed 4 8 wConnExt wSplitMsg true true 8 2 msgInitState).nmsg = some nm →
      nm.mlen = 2 ∧
      nm.mlen + (msg_parsed 4 8 wConnExt wSplitMsg true true 8 2 msgInitState).msg.mlen = 5) := by
  have h1 := (msg_parsed_spec 4 8 wConnExt { wSplitMsg with pos := some 5 } wConnExt
    [] wBuf5 5 8 2 msgInitState (by decide) (by decide) (by decide) (by decide)
    (by decide) (by decide) (by decide) rfl (by decide) (by decide)).1 rfl
  have h2 := (msg_parsed_spec 4 8 wConnExt wSplitMsg wConnExt
    [] wBuf5 3 8 2 msgInitState (by decide) (by decide) (by decide) (by decide)
    (by decide) (by decide) (by decide) rfl (by decide) (by decide)).2 (by decide)
  refine ⟨h1, ?_, ?_⟩
  · have := h2.2.2.2.2.1
    rw [this]
    decide
  · intro nm hnm
    have h3 := h2.2.2.2.2.2 nm hnm
    constructor
    · rw [h3.2.2.1]
      decide
    · rw [h3.2.2.2.2.2.2]
      decide

/-- Counterexample to C2 as stated: `msg_clone` from the *second* buffer of a
two-buffer source succeeds but sets `target->mlen = src->mlen` (5) while the
target's chain holds only the 2 copied bytes, so the cloned message violates
`mlen == Σ (last − start)` even though the source satisfies it. -/
theorem msg_mlen_invariant_counterexample :
    msgLenInv cloneSrcEx ∧
    (msg_clone 512 128 cloneSrcEx 1 (msgReset default 2) 5).1 = Rstatus.ok ∧
    ((msg_clone 512 128 cloneSrcEx 1 (msgReset default 2) 5).2.1).mlen = 5 ∧
    msg_length (msg_clone 512 128 cloneSrcEx 1 (msgReset default 2) 5).2.1 = 2 ∧
    ¬ msgLenInv (msg_clone 512 128 cloneSrcEx 1 (msgReset default 2) 5).2.1 := by
  decide

/-- Witness for the amended C2 theorem: each conjunct applied at a concrete
input. -/
theorem msg_mlen_invariant_witness :
    msgLenInv (msgReset (msgReset default 0) 1) ∧
    msgLenInv (msg_recv_chain_read wRecvMsg true 8 2 (ReadRes.bytes 2) true
      (fun k => k)).msg ∧
    msgLenInv (msg_parsed 4 8 wConnExt wSplitMsg true true 8 2 msgInitState).msg ∧
    msgLenInv (msg_repair wRepairMsg true 8 2).2 ∧
    msgLenInv (msg_clone 8 2 cloneSrcEx 0 (msgReset default 2) 5).2.1 := by
  have h := msg_mlen_invariant 8 2
  refine ⟨h.1 4 8 false true msgInitState (msgReset (msgReset default 0) 1)
      ⟨1, 0, 0, [], 1⟩ (by decide), ?_, ?_, ?_, ?_⟩
  · exact h.2.2.1 wRecvMsg 2 true (fun k => k) (by decide) (by decide) (by decide)
  · exact (h.2.2.2.1 4 8 wConnExt wSplitMsg wConnExt [] wBuf5 3 msgInitState
      (by decide) (by decide) (by decide) (by decide) (by decide) (by decide)
      rfl (by decide) (by decide)).1
  · exact h.2.2.2.2.2.1 wRepairMsg 3 [] wBuf5 (by decide) (by decide) (by decide)
      (by decide) (by decide)
  · exact (h.2.2.2.2.2.2 cloneSrcEx (msgReset default 2) 5 (by decide) (by decide)
      (by decide) (by decide)).2

/-- Witness for the amended C8 theorem at the same concrete input. -/
theorem msg_clone_failure_keeps_buffers_witness :
    ((msg_clone 512 128 cloneSrcEx 0 (msgReset default 2) 1).2.1).mhdr.length = 0 + 1 ∧
    (msg_clone 512 128 cloneSrcEx 0 (msgReset default 2) 1).2.2 = 0 := by
  have h := msg_clone_failure_keeps_buffers 512 128 cloneSrcEx 0 (msgReset default 2) 1
      (by decide)
  simpa using h

end Dynomite
